import Mathlib

/-!
Verification of the LLMQ commitment and quorum-manager subsystem.

This file gives a shallow embedding of the code in
src/llmq/commitment.cpp, src/llmq/quorums.cpp and src/evo/specialtx.h,
together with proofs about the embedded definitions.  External
collaborators (BLS worker, masternode registry, DKG session manager,
block processor, chain lookup) are modelled as fields of an explicit
environment record; mutable state (the quorum caches, the in-flight
data-request table, the durable contribution store) is threaded
explicitly.  Components whose sources are not part of the excerpt
(headers declaring helpers such as IsNull, CountSigners or the
quorum-data-request envelope) are modelled from the specification and
marked as such in their doc comments.
-/

namespace llmq

/-- 256-bit hashes are modelled as natural numbers; 0 is the null hash. -/
abbrev UInt256 := Nat

/-- A BLS public key; only validity and identity of the opaque value matter here. -/
structure CBLSPublicKey where
  valid : Bool
  dat : Nat
  deriving DecidableEq

/-- The invalid (default-constructed) BLS public key. -/
def CBLSPublicKey.null : CBLSPublicKey := ⟨false, 0⟩

/-- A BLS signature; only validity and identity of the opaque value matter here. -/
structure CBLSSignature where
  valid : Bool
  dat : Nat
  deriving DecidableEq

/-- A BLS secret key; only validity and identity of the opaque value matter here. -/
structure CBLSSecretKey where
  valid : Bool
  dat : Nat
  deriving DecidableEq

/-- The invalid (default-constructed / Reset) BLS secret key. -/
def CBLSSecretKey.null : CBLSSecretKey := ⟨false, 0⟩

/-- A verification vector is a vector of BLS public keys. -/
abbrev BLSVerificationVector := List CBLSPublicKey

/-- An encrypted per-member DKG contribution, kept opaque. -/
structure CBLSIESEncryptedSecretKey where
  blob : Nat
  deriving DecidableEq

/-- A deterministic masternode list entry, reduced to the fields the
LLMQ code reads: the pro-registration transaction hash and the operator key. -/
structure CDeterministicMN where
  proTxHash : UInt256
  pubKeyOperator : CBLSPublicKey
  deriving DecidableEq

/-- Consensus parameters of one LLMQ type (Consensus::LLMQParams). -/
structure LLMQParams where
  type : Nat
  size : Nat
  minSize : Nat
  threshold : Nat
  deriving DecidableEq

/-- The block index, modelled as the chain of headers back to genesis.
Each block stores its hash; height and parent are derived. -/
inductive CBlockIndex where
  | genesis (hash : UInt256)
  | next (hash : UInt256) (prev : CBlockIndex)
  deriving DecidableEq

/-- GetBlockHash of a block index. -/
def CBlockIndex.blockHash : CBlockIndex → UInt256
  | .genesis h => h
  | .next h _ => h

/-- The pprev pointer of a block index (none at genesis). -/
def CBlockIndex.pprev : CBlockIndex → Option CBlockIndex
  | .genesis _ => none
  | .next _ prev => some prev

/-- nHeight of a block index (genesis has height 0). -/
def CBlockIndex.nHeight : CBlockIndex → Nat
  | .genesis _ => 0
  | .next _ prev => prev.nHeight + 1

/-- CBlockIndex::GetAncestor: the ancestor at the requested height, or
none when the height is above this block (the C++ returns nullptr then). -/
def CBlockIndex.getAncestor : CBlockIndex → Nat → Option CBlockIndex
  | b@(.genesis _), h => if b.nHeight = h then some b else none
  | b@(.next _ prev), h => if b.nHeight = h then some b else prev.getAncestor h

/-- A final DKG commitment (CFinalCommitment), with the BLS material
abstracted to opaque tokens. -/
structure CFinalCommitment where
  nVersion : Nat
  llmqType : Nat
  quorumHash : UInt256
  signers : List Bool
  validMembers : List Bool
  quorumPublicKey : CBLSPublicKey
  quorumVvecHash : UInt256
  membersSig : CBLSSignature
  quorumSig : CBLSSignature
  deriving DecidableEq

/-- Modelled from the spec: the supported commitment version range is
1..CURRENT_VERSION (the header declaring the constant is not in the excerpt). -/
def CFinalCommitment.CURRENT_VERSION : Nat := 1

/-- Modelled from the spec: CountValidMembers counts the set bits of the
validMembers bit-vector (the header declaring it is not in the excerpt). -/
def CFinalCommitment.CountValidMembers (c : CFinalCommitment) : Nat :=
  c.validMembers.count true

/-- Modelled from the spec: CountSigners counts the set bits of the
signers bit-vector (the header declaring it is not in the excerpt). -/
def CFinalCommitment.CountSigners (c : CFinalCommitment) : Nat :=
  c.signers.count true

/-- Modelled from the spec: IsNull recognizes the canonical null form of a
commitment, all bits clear and the aggregated key absent (the header
declaring it is not in the excerpt). -/
def CFinalCommitment.IsNull (c : CFinalCommitment) : Bool :=
  c.CountValidMembers = 0 && c.CountSigners = 0 && !c.quorumPublicKey.valid

/-- The environment of external collaborators read by the embedded code:
chain parameters, chain lookup, masternode registry, BLS worker, DKG
session manager, mined-commitment storage and wall-clock time. -/
structure Env where
  llmqs : List (Nat × LLMQParams)
  fMasternodeMode : Bool
  isWatchQuorumsEnabled : Bool
  now : Int
  lookupBlockIndex : UInt256 → Option CBlockIndex
  getAllQuorumMembers : Nat → CBlockIndex → List CDeterministicMN
  hasMinedCommitment : Nat → UInt256 → Bool
  getMinedCommitment : Nat → UInt256 → Option (CFinalCommitment × UInt256)
  getVerifiedContributions :
    Nat → CBlockIndex → List Bool →
      Option (List Nat × List BLSVerificationVector × List CBLSSecretKey)
  getEncryptedContributions :
    Nat → CBlockIndex → List Bool → UInt256 → Option (List CBLSIESEncryptedSecretKey)
  buildQuorumVerificationVector : List BLSVerificationVector → Option BLSVerificationVector
  aggregateSecretKeys : List CBLSSecretKey → CBLSSecretKey
  secretKeyPubKey : CBLSSecretKey → CBLSPublicKey
  buildPubKeyShare : UInt256 → BLSVerificationVector → UInt256 → CBLSPublicKey
  serializeHashVvec : BLSVerificationVector → UInt256
  hashQuorumKey : Nat → UInt256 → List UInt256 → UInt256
  buildCommitmentHash : Nat → UInt256 → List Bool → CBLSPublicKey → UInt256 → UInt256
  verifySecureAggregated : CBLSSignature → List CBLSPublicKey → UInt256 → Bool
  verifyInsecure : CBLSSignature → CBLSPublicKey → UInt256 → Bool
  activeMasternodeProTxHash : UInt256
  activeBlsOperatorKey : CBLSSecretKey
  decryptContribution : Nat → CBLSSecretKey → CBLSIESEncryptedSecretKey → Option CBLSSecretKey
  deserializeQcPayload : List Nat → Option ((Nat × Nat × CFinalCommitment) × List Nat)

/-- Params().GetConsensus().llmqs lookup: the parameters configured for a type. -/
def lookupLLMQ (env : Env) (llmqType : Nat) : Option LLMQParams :=
  (env.llmqs.find? (fun p => p.1 = llmqType)).map (·.2)

/-- CFinalCommitment::VerifySizes: both bit-vectors must have exactly the
configured member-set size. -/
def CFinalCommitment.VerifySizes (c : CFinalCommitment) (params : LLMQParams) : Bool :=
  if c.signers.length ≠ params.size then false
  else if c.validMembers.length ≠ params.size then false
  else true

/-- CFinalCommitment::Verify: the consensus self-validation of a
commitment against the member list resolved for its anchor block
(src/llmq/commitment.cpp lines 30-107), check for check in source order. -/
def CFinalCommitment.Verify (c : CFinalCommitment) (env : Env)
    (pQuorumBaseBlockIndex : CBlockIndex) (checkSigs : Bool) : Bool :=
  !decide (c.nVersion = 0 ∨ c.nVersion > CFinalCommitment.CURRENT_VERSION) &&
  match lookupLLMQ env c.llmqType with
  | none => false
  | some llmq_params =>
    c.VerifySizes llmq_params &&
    !decide (c.CountValidMembers < llmq_params.minSize) &&
    !decide (c.CountSigners < llmq_params.minSize) &&
    c.quorumPublicKey.valid &&
    !decide (c.quorumVvecHash = 0) &&
    c.membersSig.valid &&
    c.quorumSig.valid &&
    ((List.range' (env.getAllQuorumMembers c.llmqType pQuorumBaseBlockIndex).length
        (llmq_params.size -
          (env.getAllQuorumMembers c.llmqType pQuorumBaseBlockIndex).length)).all
      (fun i => !(c.validMembers.getD i false) && !(c.signers.getD i false))) &&
    (!checkSigs ||
      (let members := env.getAllQuorumMembers c.llmqType pQuorumBaseBlockIndex
       let commitmentHash :=
         env.buildCommitmentHash c.llmqType c.quorumHash c.validMembers
           c.quorumPublicKey c.quorumVvecHash
       let memberPubKeys :=
         (members.enum.filter (fun p => c.signers.getD p.1 false)).map
           (fun p => p.2.pubKeyOperator)
       env.verifySecureAggregated c.membersSig memberPubKeys commitmentHash &&
       env.verifyInsecure c.quorumSig c.quorumPublicKey commitmentHash))

/-- CFinalCommitment::VerifyNull (src/llmq/commitment.cpp lines 109-121):
the type must be configured and the commitment must be the null form with
correctly sized bit-vectors. -/
def CFinalCommitment.VerifyNull (c : CFinalCommitment) (env : Env) : Bool :=
  match lookupLLMQ env c.llmqType with
  | none => false
  | some params =>
    if !c.IsNull ∨ !c.VerifySizes params then false
    else true

/-- The commitment transaction payload (CFinalCommitmentTxPayload):
version, height and the embedded commitment. -/
structure CFinalCommitmentTxPayload where
  nVersion : Nat
  nHeight : Nat
  commitment : CFinalCommitment
  deriving DecidableEq

/-- Modelled from the spec: the supported payload version range is
1..CURRENT_VERSION (the header declaring the constant is not in the excerpt). -/
def CFinalCommitmentTxPayload.CURRENT_VERSION : Nat := 1

/-- A transaction, reduced to the special-payload bytes the check reads. -/
structure CTransaction where
  vExtraPayload : List Nat
  deriving DecidableEq

/-- GetTxPayload (src/evo/specialtx.h lines 24-34): deserialize the extra
payload; fail on a deserialization exception, succeed only when the
stream is fully consumed.  Stream extraction itself is external and is
supplied by the environment. -/
def GetTxPayload (env : Env) (tx : CTransaction) : Option CFinalCommitmentTxPayload :=
  match env.deserializeQcPayload tx.vExtraPayload with
  | none => none
  | some ((v, h, c), rest) => if rest.isEmpty then some ⟨v, h, c⟩ else none

/-- CheckLLMQCommitment (src/llmq/commitment.cpp lines 136-178): the
consensus acceptance of a commitment transaction; a rejection carries the
machine-readable reason string passed to state.DoS. -/
def CheckLLMQCommitment (env : Env) (tx : CTransaction) (pindexPrev : CBlockIndex) :
    Except String Unit :=
  match GetTxPayload env tx with
  | none => .error "bad-qc-payload"
  | some qcTx =>
    if qcTx.nVersion = 0 ∨ qcTx.nVersion > CFinalCommitmentTxPayload.CURRENT_VERSION then
      .error "bad-qc-version"
    else if qcTx.nHeight ≠ pindexPrev.nHeight + 1 then
      .error "bad-qc-height"
    else match env.lookupBlockIndex qcTx.commitment.quorumHash with
    | none => .error "bad-qc-quorum-hash"
    | some pQuorumBaseBlockIndex =>
      if pindexPrev.getAncestor pQuorumBaseBlockIndex.nHeight ≠ some pQuorumBaseBlockIndex then
        .error "bad-qc-quorum-hash"
      else if (lookupLLMQ env qcTx.commitment.llmqType).isNone then
        .error "bad-qc-type"
      else if qcTx.commitment.IsNull then
        if !qcTx.commitment.VerifyNull env then .error "bad-qc-invalid-null"
        else .ok ()
      else if !qcTx.commitment.Verify env pQuorumBaseBlockIndex false then
        .error "bad-qc-invalid"
      else .ok ()

/-- A runtime quorum object (CQuorum): commitment, anchor block, member
list and the optional cryptographic material. -/
structure CQuorum where
  params : LLMQParams
  qc : CFinalCommitment
  pindexQuorum : CBlockIndex
  minedBlockHash : UInt256
  members : List CDeterministicMN
  quorumVvec : Option BLSVerificationVector
  skShare : CBLSSecretKey
  fQuorumDataRecoveryThreadRunning : Bool
  deriving DecidableEq

/-- The durable contribution store (the evoDb raw keyspace used by
WriteContributions/ReadContributions): a verification-vector table and a
secret-share table keyed by the quorum key.  Writes shadow older entries. -/
structure EvoDb where
  vvecs : List (UInt256 × BLSVerificationVector)
  sks : List (UInt256 × CBLSSecretKey)
  deriving DecidableEq

/-- Read the verification vector stored at a key. -/
def EvoDb.readVvec (db : EvoDb) (k : UInt256) : Option BLSVerificationVector :=
  (db.vvecs.find? (fun e => e.1 = k)).map (·.2)

/-- Read the secret key share stored at a key. -/
def EvoDb.readSk (db : EvoDb) (k : UInt256) : Option CBLSSecretKey :=
  (db.sks.find? (fun e => e.1 = k)).map (·.2)

/-- Store a verification vector at a key. -/
def EvoDb.writeVvec (db : EvoDb) (k : UInt256) (v : BLSVerificationVector) : EvoDb :=
  { db with vvecs := (k, v) :: db.vvecs }

/-- Store a secret key share at a key. -/
def EvoDb.writeSk (db : EvoDb) (k : UInt256) (s : CBLSSecretKey) : EvoDb :=
  { db with sks := (k, s) :: db.sks }

/-- A bounded cache with LRU-like eviction (unordered_lru_cache): newest
entries first, truncated to the capacity on insert. -/
structure LruCache (α : Type) where
  maxSize : Nat
  entries : List (UInt256 × α)
  deriving DecidableEq

/-- Cache lookup by key. -/
def LruCache.get {α : Type} (c : LruCache α) (k : UInt256) : Option α :=
  (c.entries.find? (fun e => e.1 = k)).map (·.2)

/-- Cache insert: the new entry becomes most recent, a previous entry for
the key is dropped, and the cache is truncated to its capacity. -/
def LruCache.insert {α : Type} (c : LruCache α) (k : UInt256) (v : α) : LruCache α :=
  { c with entries := ((k, v) :: c.entries.filter (fun e => ¬e.1 = k)).take c.maxSize }

/-- The error codes of the quorum data request envelope. -/
inductive QDataError where
  | NONE
  | UNDEFINED
  | QUORUM_TYPE_INVALID
  | QUORUM_BLOCK_NOT_FOUND
  | QUORUM_NOT_FOUND
  | MASTERNODE_IS_NO_MEMBER
  | QUORUM_VERIFICATION_VECTOR_MISSING
  | ENCRYPTED_CONTRIBUTIONS_MISSING
  deriving DecidableEq

/-- Modelled from the spec: the quorum data request envelope
(CQuorumDataRequest, whose header is not in the excerpt): quorum type,
quorum hash, requested-data bitmask, requesting member identity, error
code, processed flag and creation timestamp. -/
structure CQuorumDataRequest where
  llmqType : Nat
  quorumHash : UInt256
  nDataMask : Nat
  proTxHash : UInt256
  nError : QDataError
  fProcessed : Bool
  nTime : Int
  deriving DecidableEq

/-- Data-mask bit 0: the quorum verification vector. -/
def CQuorumDataRequest.QUORUM_VERIFICATION_VECTOR : Nat := 1

/-- Data-mask bit 1: the encrypted per-member contributions. -/
def CQuorumDataRequest.ENCRYPTED_CONTRIBUTIONS : Nat := 2

/-- Modelled from the spec: the fixed TTL after which an in-flight data
request counts as expired and may be replaced. -/
def dataRequestExpirationTimeout : Int := 300

/-- Modelled from the spec: a request is expired once its age exceeds the
fixed timeout. -/
def CQuorumDataRequest.IsExpired (env : Env) (r : CQuorumDataRequest) : Bool :=
  env.now - r.nTime > dataRequestExpirationTimeout

/-- Modelled from the spec: request equality used by the response matcher
compares quorum type, quorum hash, data mask and requester identity. -/
def CQuorumDataRequest.sameRequest (a b : CQuorumDataRequest) : Bool :=
  a.llmqType = b.llmqType && a.quorumHash = b.quorumHash &&
    a.nDataMask = b.nDataMask && a.proTxHash = b.proTxHash

/-- Mark a request processed. -/
def CQuorumDataRequest.SetProcessed (r : CQuorumDataRequest) : CQuorumDataRequest :=
  { r with fProcessed := true }

/-- Set the error code of a request envelope. -/
def CQuorumDataRequest.SetError (r : CQuorumDataRequest) (e : QDataError) : CQuorumDataRequest :=
  { r with nError := e }

/-- The quorum manager's mutable state: the per-type quorum cache, the
per-type scan cache, the in-flight data-request table (keyed by peer
identity and direction, direction true = outgoing) and the durable store. -/
structure ManagerState where
  mapQuorumsCache : List (Nat × LruCache CQuorum)
  scanQuorumsCache : List (Nat × LruCache (List CQuorum))
  dataRequests : List ((UInt256 × Bool) × CQuorumDataRequest)
  evoDb : EvoDb
  deriving DecidableEq

/-- The per-type quorum cache (empty with capacity 0 for an unknown type). -/
def getMapCache (st : ManagerState) (t : Nat) : LruCache CQuorum :=
  ((st.mapQuorumsCache.find? (fun e => e.1 = t)).map (·.2)).getD ⟨0, []⟩

/-- The per-type scan cache (empty with capacity 0 for an unknown type). -/
def getScanCache (st : ManagerState) (t : Nat) : LruCache (List CQuorum) :=
  ((st.scanQuorumsCache.find? (fun e => e.1 = t)).map (·.2)).getD ⟨0, []⟩

/-- Replace the per-type quorum cache by applying f to it. -/
def updateMapCache (st : ManagerState) (t : Nat) (f : LruCache CQuorum → LruCache CQuorum) :
    ManagerState :=
  { st with mapQuorumsCache :=
      st.mapQuorumsCache.map (fun e => if e.1 = t then (e.1, f e.2) else e) }

/-- Replace the per-type scan cache by applying f to it. -/
def updateScanCache (st : ManagerState) (t : Nat)
    (f : LruCache (List CQuorum) → LruCache (List CQuorum)) : ManagerState :=
  { st with scanQuorumsCache :=
      st.scanQuorumsCache.map (fun e => if e.1 = t then (e.1, f e.2) else e) }

/-- Find an in-flight data request by (peer identity, direction) key. -/
def findDataRequest (st : ManagerState) (k : UInt256 × Bool) : Option CQuorumDataRequest :=
  (st.dataRequests.find? (fun e => e.1 = k)).map (·.2)

/-- Store an in-flight data request under a key, shadowing any older entry. -/
def setDataRequest (st : ManagerState) (k : UInt256 × Bool) (r : CQuorumDataRequest) :
    ManagerState :=
  { st with dataRequests := (k, r) :: st.dataRequests.filter (fun e => ¬e.1 = k) }

/-- MakeQuorumKey (src/llmq/quorums.cpp lines 37-46): the deterministic
key of a quorum in the durable store, a hash over type, quorum hash and
the member identities. -/
def MakeQuorumKey (env : Env) (q : CQuorum) : UInt256 :=
  env.hashQuorumKey q.params.type q.qc.quorumHash (q.members.map (·.proTxHash))

/-- CQuorum::SetVerificationVector (src/llmq/quorums.cpp lines 62-72):
accept the candidate vector only when its serialized hash equals the
commitment's recorded verification-vector hash. -/
def CQuorum.SetVerificationVector (q : CQuorum) (env : Env)
    (quorumVecIn : BLSVerificationVector) : Bool × CQuorum :=
  if env.serializeHashVvec quorumVecIn ≠ q.qc.quorumVvecHash then (false, q)
  else (true, { q with quorumVvec := some quorumVecIn })

/-- CQuorum::GetMemberIndex (src/llmq/quorums.cpp lines 122-130): index of
a member identity in the member list, -1 when absent. -/
def CQuorum.GetMemberIndex (q : CQuorum) (proTxHash : UInt256) : Int :=
  match q.members.findIdx? (fun m => m.proTxHash = proTxHash) with
  | some i => (i : Int)
  | none => -1

/-- CQuorum::HasVerificationVector (src/llmq/quorums.cpp lines 111-114). -/
def CQuorum.HasVerificationVector (q : CQuorum) : Bool :=
  q.quorumVvec.isSome

/-- CQuorum::IsValidMember (src/llmq/quorums.cpp lines 91-99). -/
def CQuorum.IsValidMember (q : CQuorum) (proTxHash : UInt256) : Bool :=
  match q.members.findIdx? (fun m => m.proTxHash = proTxHash) with
  | some i => q.qc.validMembers.getD i false
  | none => false

/-- CQuorum::GetPubKeyShare (src/llmq/quorums.cpp lines 101-109): null key
without a verification vector, out-of-range index or invalid member;
otherwise the derived share for the member.  A negative index (the C++
size_t conversion of -1) is out of range. -/
def CQuorum.GetPubKeyShare (q : CQuorum) (env : Env) (memberIdx : Int) : CBLSPublicKey :=
  match q.quorumVvec with
  | none => CBLSPublicKey.null
  | some vvec =>
    if memberIdx < 0 ∨ memberIdx ≥ (q.members.length : Int) then CBLSPublicKey.null
    else
      let m := q.members.getD memberIdx.toNat ⟨0, CBLSPublicKey.null⟩
      if !q.qc.validMembers.getD memberIdx.toNat false then CBLSPublicKey.null
      else env.buildPubKeyShare m.proTxHash vvec m.proTxHash

/-- CQuorum::SetSecretKeyShare (src/llmq/quorums.cpp lines 74-82): accept
only a valid secret share whose public key equals this node's expected
public key share. -/
def CQuorum.SetSecretKeyShare (q : CQuorum) (env : Env) (secretKeyShare : CBLSSecretKey) :
    Bool × CQuorum :=
  if !secretKeyShare.valid ∨
      env.secretKeyPubKey secretKeyShare ≠
        q.GetPubKeyShare env (q.GetMemberIndex env.activeMasternodeProTxHash) then
    (false, q)
  else (true, { q with skShare := secretKeyShare })

/-- CQuorum::WriteContributions (src/llmq/quorums.cpp lines 132-143):
persist the verification vector and, when valid, the secret share. -/
def CQuorum.WriteContributions (q : CQuorum) (env : Env) (db : EvoDb) : EvoDb :=
  let dbKey := MakeQuorumKey env q
  let db1 := match q.quorumVvec with
    | some v => db.writeVvec dbKey v
    | none => db
  if q.skShare.valid then db1.writeSk dbKey q.skShare else db1

/-- CQuorum::ReadContributions (src/llmq/quorums.cpp lines 145-161): fail
unless a verification vector is stored; the secret share read is allowed
to fail and then leaves the share unchanged. -/
def CQuorum.ReadContributions (q : CQuorum) (env : Env) (db : EvoDb) : Bool × CQuorum :=
  let dbKey := MakeQuorumKey env q
  match db.readVvec dbKey with
  | none => (false, q)
  | some v =>
    let q1 := { q with quorumVvec := some v }
    match db.readSk dbKey with
    | some s => (true, { q1 with skShare := s })
    | none => (true, q1)

/-- CQuorumManager::BuildQuorumContributions (src/llmq/quorums.cpp lines
337-367): aggregate the verified DKG contributions into a verification
vector and secret share; an invalid aggregate share is reset. -/
def BuildQuorumContributions (env : Env) (fqc : CFinalCommitment) (quorum : CQuorum) :
    Bool × CQuorum :=
  match env.getVerifiedContributions fqc.llmqType quorum.pindexQuorum fqc.validMembers with
  | none => (false, quorum)
  | some (_, vvecs, skContributions) =>
    let q1 := { quorum with quorumVvec := env.buildQuorumVerificationVector vvecs }
    if !q1.HasVerificationVector then (false, q1)
    else
      let sk := env.aggregateSecretKeys skContributions
      (true, { q1 with skShare := if sk.valid then sk else CBLSSecretKey.null })

/-- The base quorum object assembled by CQuorum::Init inside
BuildQuorumFromCommitment, before any contributions are loaded. -/
def baseQuorum (env : Env) (llmqType : Nat) (pindexQuorum : CBlockIndex)
    (qc : CFinalCommitment) (minedBlockHash : UInt256) : CQuorum :=
  { params := (lookupLLMQ env llmqType).getD ⟨llmqType, 0, 0, 0⟩
    qc := qc
    pindexQuorum := pindexQuorum
    minedBlockHash := minedBlockHash
    members := env.getAllQuorumMembers qc.llmqType pindexQuorum
    quorumVvec := none
    skShare := CBLSSecretKey.null
    fQuorumDataRecoveryThreadRunning := false }

/-- CQuorumManager::BuildQuorumFromCommitment (src/llmq/quorums.cpp lines
295-335): build the quorum from the mined commitment, read or rebuild its
contributions (persisting a fresh build), and cache it. -/
def BuildQuorumFromCommitment (env : Env) (st : ManagerState) (llmqType : Nat)
    (pindexQuorum : CBlockIndex) : Option CQuorum × ManagerState :=
  let quorumHash := pindexQuorum.blockHash
  match env.getMinedCommitment llmqType quorumHash with
  | none => (none, st)
  | some (qc, minedBlockHash) =>
    let q0 := baseQuorum env llmqType pindexQuorum qc minedBlockHash
    let read := q0.ReadContributions env st.evoDb
    let built :=
      if read.1 then (read.2, st)
      else match BuildQuorumContributions env qc q0 with
        | (true, qb) => (qb, { st with evoDb := qb.WriteContributions env st.evoDb })
        | (false, qb) => (qb, st)
    (some built.1, updateMapCache built.2 llmqType (fun c => c.insert quorumHash built.1))

/-- CQuorumManager::HasQuorum (src/llmq/quorums.cpp lines 369-372):
whether the durable commitment storage has a mined commitment. -/
def HasQuorum (env : Env) (llmqType : Nat) (quorumHash : UInt256) : Bool :=
  env.hasMinedCommitment llmqType quorumHash

/-- CQuorumManager::GetQuorum (src/llmq/quorums.cpp lines 492-511): check
durable commitment storage first (cached quorums for blocks no longer on
the active chain must be rejected), then the cache, then build. -/
def GetQuorum (env : Env) (st : ManagerState) (llmqType : Nat)
    (pindexQuorum : CBlockIndex) : Option CQuorum × ManagerState :=
  let quorumHash := pindexQuorum.blockHash
  if !HasQuorum env llmqType quorumHash then (none, st)
  else match (getMapCache st llmqType).get quorumHash with
  | some pQuorum => (some pQuorum, st)
  | none => BuildQuorumFromCommitment env st llmqType pindexQuorum

/-- Modelled from the spec: the mined-commitment history walked backward
from a block, newest first, one entry per quorum anchor block whose
commitment was mined (the block processor source is not in the excerpt). -/
def minedAncestors (env : Env) (t : Nat) : CBlockIndex → List CBlockIndex
  | .genesis h =>
    if env.hasMinedCommitment t h then [.genesis h] else []
  | .next h prev =>
    (if env.hasMinedCommitment t h then [.next h prev] else []) ++ minedAncestors env t prev

/-- The mined-commitment walk from an optional block (empty from the null
pointer). -/
def minedOpt (env : Env) (t : Nat) : Option CBlockIndex → List CBlockIndex
  | none => []
  | some b => minedAncestors env t b

/-- Modelled from the spec:
quorumBlockProcessor->GetMinedCommitmentsUntilBlock, up to maxCount
mined-commitment anchor blocks walking backward from pindex. -/
def GetMinedCommitmentsUntilBlock (env : Env) (t : Nat) (pindex : Option CBlockIndex)
    (maxCount : Nat) : List CBlockIndex :=
  (minedOpt env t pindex).take maxCount

/-- The quorum-collection loop of ScanQuorums: fetch each quorum via
GetQuorum, appending to the accumulator; the source asserts that every
quorum exists, so a missing one is a failure of the whole scan. -/
def appendQuorums (env : Env) (t : Nat) :
    ManagerState → List CQuorum → List CBlockIndex → Option (List CQuorum × ManagerState)
  | st, acc, [] => some (acc, st)
  | st, acc, b :: rest =>
    match GetQuorum env st t b with
    | (none, _) => none
    | (some q, st1) => appendQuorums env t st1 (acc ++ [q]) rest

/-- CQuorumManager::ScanQuorums (src/llmq/quorums.cpp lines 421-480): the
cache-first scan for the most recent quorums of a type, extending a
cached subset from the last cached quorum's parent block and caching a
fresh scan up to the cache capacity. -/
def ScanQuorums (env : Env) (st : ManagerState) (llmqType : Nat)
    (pindexStart : Option CBlockIndex) (nCountRequested : Nat) :
    Option (List CQuorum × ManagerState) :=
  match pindexStart with
  | none => some ([], st)
  | some pstart =>
    if nCountRequested = 0 then some ([], st)
    else
      let cache := getScanCache st llmqType
      match cache.get pstart.blockHash with
      | some vecCached =>
        if vecCached.length = nCountRequested then some (vecCached, st)
        else if vecCached.length > nCountRequested then
          some (vecCached.take nCountRequested, st)
        else
          let pIndexScan : Option CBlockIndex :=
            if vecCached.length > 0 then
              (vecCached.getLast?.map (fun q => q.pindexQuorum.pprev)).getD none
            else some pstart
          let nScan :=
            if vecCached.length > 0 then nCountRequested - vecCached.length
            else nCountRequested
          match appendQuorums env llmqType st vecCached
              (GetMinedCommitmentsUntilBlock env llmqType pIndexScan nScan) with
          | none => none
          | some (vec, st1) => some (vec.take nCountRequested, st1)
      | none =>
        let nScan := max nCountRequested cache.maxSize
        match appendQuorums env llmqType st []
            (GetMinedCommitmentsUntilBlock env llmqType (some pstart) nScan) with
        | none => none
        | some (vec, st1) =>
          let st2 :=
            if vec.length > 0 then
              updateScanCache st1 llmqType
                (fun c => c.insert pstart.blockHash (vec.take (min vec.length c.maxSize)))
            else st1
          some (vec.take nCountRequested, st2)

/-- A peer connection, reduced to the fields the quorum manager reads. -/
structure CNode where
  nVersion : Nat
  verifiedProRegTxHash : UInt256
  qwatch : Bool
  deriving DecidableEq

/-- Modelled from the spec: the protocol-version floor required for the
quorum data messages (the header declaring it is not in the excerpt). -/
def LLMQ_DATA_MESSAGES_VERSION : Nat := 70219

/-- The body of a QDATA response: the serialized verification vector
and/or encrypted contributions, per the requested mask. -/
structure QDataBody where
  vvec : Option BLSVerificationVector
  contributions : Option (List CBLSIESEncryptedSecretKey)
  deriving DecidableEq

/-- The empty QDATA body. -/
def QDataBody.empty : QDataBody := ⟨none, none⟩

/-- Observable effects of the message handlers: an errorHandler call
(log message plus misbehavior score, 0 meaning no score) and sent
messages. -/
inductive QEffect where
  | err (msg : String) (score : Nat)
  | sentQDATA (resp : CQuorumDataRequest) (body : QDataBody)
  | sentQGETDATA (req : CQuorumDataRequest)
  deriving DecidableEq

/-- CQuorumManager::RequestQuorumData (src/llmq/quorums.cpp lines
374-413): gate the outgoing request and enforce a single in-flight
request per peer; emplace does not replace an existing (expired) entry,
and the message pushed is the table entry. -/
def RequestQuorumData (env : Env) (st : ManagerState) (pFrom : Option CNode)
    (llmqType : Nat) (pQuorumIndex : Option CBlockIndex) (nDataMask : Nat)
    (proTxHash : UInt256) : Bool × ManagerState × Option CQuorumDataRequest :=
  match pFrom with
  | none => (false, st, none)
  | some pFrom =>
    if pFrom.nVersion < LLMQ_DATA_MESSAGES_VERSION then (false, st, none)
    else if pFrom.verifiedProRegTxHash = 0 ∧ !pFrom.qwatch then (false, st, none)
    else if (lookupLLMQ env llmqType).isNone then (false, st, none)
    else match pQuorumIndex with
    | none => (false, st, none)
    | some pQuorumIndex =>
      match GetQuorum env st llmqType pQuorumIndex with
      | (none, st1) => (false, st1, none)
      | (some _, st1) =>
        let key := (pFrom.verifiedProRegTxHash, true)
        let newRequest : CQuorumDataRequest :=
          ⟨llmqType, pQuorumIndex.blockHash, nDataMask, proTxHash,
            .UNDEFINED, false, env.now⟩
        match findDataRequest st1 key with
        | none => (true, setDataRequest st1 key newRequest, some newRequest)
        | some old =>
          if !old.IsExpired env then (false, st1, none)
          else (true, st1, some old)

/-- The QGETDATA branch of CQuorumManager::ProcessMessage
(src/llmq/quorums.cpp lines 546-625): record the incoming request in the
in-flight table (scoring an unexpired duplicate), then answer with the
requested data or an in-band error code.  As in the source, the
duplicate-request branch falls through to the service path. -/
def ProcessQGETDATA (env : Env) (st : ManagerState) (pFrom : Option CNode)
    (request : CQuorumDataRequest) : ManagerState × List QEffect :=
  match pFrom with
  | none => (st, [.err "Not a verified masternode or a qwatch connection" 10])
  | some pFrom =>
    if !env.fMasternodeMode ∨ (pFrom.verifiedProRegTxHash = 0 ∧ !pFrom.qwatch) then
      (st, [.err "Not a verified masternode or a qwatch connection" 10])
    else
      let key := (pFrom.verifiedProRegTxHash, false)
      let tbl :=
        match findDataRequest st key with
        | none => (setDataRequest st key request, ([] : List QEffect))
        | some old =>
          if old.IsExpired env then (setDataRequest st key request, [])
          else (st, [.err "Request limit exceeded" 25])
      let st1 := tbl.1
      let effs := tbl.2
      if (lookupLLMQ env request.llmqType).isNone then
        (st1, effs ++ [.sentQDATA (request.SetError .QUORUM_TYPE_INVALID) QDataBody.empty])
      else match env.lookupBlockIndex request.quorumHash with
      | none =>
        (st1, effs ++ [.sentQDATA (request.SetError .QUORUM_BLOCK_NOT_FOUND) QDataBody.empty])
      | some pQuorumIndex =>
        match GetQuorum env st1 request.llmqType pQuorumIndex with
        | (none, st2) =>
          (st2, effs ++ [.sentQDATA (request.SetError .QUORUM_NOT_FOUND) QDataBody.empty])
        | (some pQuorum, st2) =>
          if request.nDataMask &&& CQuorumDataRequest.QUORUM_VERIFICATION_VECTOR ≠ 0 ∧
              !pQuorum.HasVerificationVector then
            (st2, effs ++
              [.sentQDATA (request.SetError .QUORUM_VERIFICATION_VECTOR_MISSING)
                QDataBody.empty])
          else
            let body1 : QDataBody :=
              if request.nDataMask &&& CQuorumDataRequest.QUORUM_VERIFICATION_VECTOR ≠ 0 then
                { QDataBody.empty with vvec := pQuorum.quorumVvec }
              else QDataBody.empty
            if request.nDataMask &&& CQuorumDataRequest.ENCRYPTED_CONTRIBUTIONS ≠ 0 then
              if pQuorum.GetMemberIndex request.proTxHash = -1 then
                (st2, effs ++
                  [.sentQDATA (request.SetError .MASTERNODE_IS_NO_MEMBER) QDataBody.empty])
              else match env.getEncryptedContributions request.llmqType pQuorumIndex
                  pQuorum.qc.validMembers request.proTxHash with
              | none =>
                (st2, effs ++
                  [.sentQDATA (request.SetError .ENCRYPTED_CONTRIBUTIONS_MISSING)
                    QDataBody.empty])
              | some vecEncrypted =>
                (st2, effs ++
                  [.sentQDATA (request.SetError .NONE)
                    { body1 with contributions := some vecEncrypted }])
            else
              (st2, effs ++ [.sentQDATA (request.SetError .NONE) body1])

/-- The payload-application stage of the QDATA branch of
CQuorumManager::ProcessMessage (src/llmq/quorums.cpp lines 655-717),
reached once the response matched the outstanding request: absorb the
carried verification vector and/or encrypted contributions into the
cached quorum, then persist.  The result is none exactly when the
handler dereferences the null verification vector in the
encrypted-contributions branch. -/
def applyQDATA (env : Env) (st1 : ManagerState) (request : CQuorumDataRequest)
    (vvecIn : BLSVerificationVector) (encIn : List CBLSIESEncryptedSecretKey) :
    Option (ManagerState × List QEffect) :=
  if request.nError ≠ QDataError.NONE then
    some (st1, [.err "Error" 0])
  else match (getMapCache st1 request.llmqType).get request.quorumHash with
  | none => some (st1, [.err "Quorum not found" 0])
  | some pQuorum =>
    let vv :=
      if request.nDataMask &&& CQuorumDataRequest.QUORUM_VERIFICATION_VECTOR ≠ 0 then
        pQuorum.SetVerificationVector env vvecIn
      else (true, pQuorum)
    if !vv.1 then some (st1, [.err "Invalid quorum verification vector" 10])
    else
      let pQuorum1 := vv.2
      let st2 :=
        if request.nDataMask &&& CQuorumDataRequest.QUORUM_VERIFICATION_VECTOR ≠ 0 then
          updateMapCache st1 request.llmqType
            (fun c => c.insert request.quorumHash pQuorum1)
        else st1
      if request.nDataMask &&& CQuorumDataRequest.ENCRYPTED_CONTRIBUTIONS ≠ 0 then
        match pQuorum1.quorumVvec with
        | none => none
        | some vvec =>
          if vvec.length ≠ pQuorum1.params.threshold then
            some (st2, [.err "No valid quorum verification vector available" 0])
          else
            let memberIdx := pQuorum1.GetMemberIndex request.proTxHash
            if memberIdx = -1 then
              some (st2, [.err "Not a member of the quorum" 0])
            else match encIn.mapM
                (env.decryptContribution memberIdx.toNat env.activeBlsOperatorKey) with
            | none => some (st2, [.err "Failed to decrypt" 10])
            | some vecSecretKeys =>
              let secretKeyShare := env.aggregateSecretKeys vecSecretKeys
              let sks := pQuorum1.SetSecretKeyShare env secretKeyShare
              if !sks.1 then
                some (st2, [.err "Invalid secret key share received" 10])
              else
                let pQuorum2 := sks.2
                let st3 := updateMapCache st2 request.llmqType
                  (fun c => c.insert request.quorumHash pQuorum2)
                some ({ st3 with
                  evoDb := pQuorum2.WriteContributions env st3.evoDb }, [])
      else
        some ({ st2 with
          evoDb := pQuorum1.WriteContributions env st2.evoDb }, [])

/-- The QDATA branch of CQuorumManager::ProcessMessage
(src/llmq/quorums.cpp lines 627-653): the sender gate and the match of
the response against the outstanding outgoing request, marking it
processed before the payload is applied by applyQDATA. -/
def ProcessQDATA (env : Env) (st : ManagerState) (pFrom : Option CNode)
    (request : CQuorumDataRequest) (vvecIn : BLSVerificationVector)
    (encIn : List CBLSIESEncryptedSecretKey) : Option (ManagerState × List QEffect) :=
  match pFrom with
  | none => some (st, [.err "Not a verified masternode or a qwatch connection" 10])
  | some pFrom =>
    let verifiedProRegTxHash := pFrom.verifiedProRegTxHash
    if (!env.fMasternodeMode ∧ !env.isWatchQuorumsEnabled) ∨
        (verifiedProRegTxHash = 0 ∧ !pFrom.qwatch) then
      some (st, [.err "Not a verified masternode or a qwatch connection" 10])
    else
      let key := (verifiedProRegTxHash, true)
      match findDataRequest st key with
      | none => some (st, [.err "Not requested" 10])
      | some entry =>
        if entry.fProcessed then some (st, [.err "Already received" 10])
        else if !request.sameRequest entry then some (st, [.err "Not like requested" 10])
        else
          applyQDATA env (setDataRequest st key entry.SetProcessed) request vvecIn encIn

/-! Concrete values used to instantiate the theorems below. -/

/-- A valid BLS public key token. -/
def kValid : CBLSPublicKey := ⟨true, 1⟩

/-- A valid BLS signature token. -/
def sigValid : CBLSSignature := ⟨true, 1⟩

/-- A base environment with inert collaborators, overridden per scenario. -/
def envBase : Env where
  llmqs := []
  fMasternodeMode := false
  isWatchQuorumsEnabled := false
  now := 0
  lookupBlockIndex := fun _ => none
  getAllQuorumMembers := fun _ _ => []
  hasMinedCommitment := fun _ _ => false
  getMinedCommitment := fun _ _ => none
  getVerifiedContributions := fun _ _ _ => none
  getEncryptedContributions := fun _ _ _ _ => none
  buildQuorumVerificationVector := fun _ => none
  aggregateSecretKeys := fun _ => CBLSSecretKey.null
  secretKeyPubKey := fun _ => CBLSPublicKey.null
  buildPubKeyShare := fun _ _ _ => CBLSPublicKey.null
  serializeHashVvec := fun _ => 0
  hashQuorumKey := fun _ qh _ => qh
  buildCommitmentHash := fun _ _ _ _ _ => 0
  verifySecureAggregated := fun _ _ _ => true
  verifyInsecure := fun _ _ _ => true
  activeMasternodeProTxHash := 0
  activeBlsOperatorKey := CBLSSecretKey.null
  decryptContribution := fun _ _ _ => none
  deserializeQcPayload := fun _ => none

/-- An LLMQ parameter set: type 1, size 3, minimum 2, threshold 2. -/
def paramsA : LLMQParams := ⟨1, 3, 2, 2⟩

/-- A masternode entry. -/
def mnA : CDeterministicMN := ⟨100, kValid⟩

/-- A commitment whose quorum hash (50) has no block in envC1. -/
def cQ50 : CFinalCommitment :=
  ⟨1, 1, 50, [], [], CBLSPublicKey.null, 7, ⟨false, 0⟩, ⟨false, 0⟩⟩

/-- A commitment whose quorum hash (40) resolves to a side-branch block in envC1. -/
def cQ40 : CFinalCommitment := { cQ50 with quorumHash := 40 }

/-- The validation context block for the commitment-transaction scenarios:
height 2, chain 10 - 20 - 30. -/
def prevC1 : CBlockIndex := .next 30 (.next 20 (.genesis 10))

/-- Environment for the commitment-transaction scenarios: payload bytes
[1], [2], [3] deserialize to payloads with a wrong height, an unknown
quorum hash and a side-branch quorum hash respectively. -/
def envC1 : Env :=
  { envBase with
    llmqs := [(1, paramsA)]
    lookupBlockIndex := fun h => if h = 40 then some (.genesis 40) else none
    deserializeQcPayload := fun bytes =>
      if bytes = [1] then some ((1, 7, cQ50), [])
      else if bytes = [2] then some ((1, 3, cQ50), [])
      else if bytes = [3] then some ((1, 3, cQ40), [])
      else none }

/-- Environment whose member registry resolves a single member for any
anchor block while type 1 is configured with size 3. -/
def envC2 : Env :=
  { envBase with
    llmqs := [(1, paramsA)]
    getAllQuorumMembers := fun _ _ => [mnA] }

/-- A commitment with bits set at indexes past the resolved member list. -/
def cC2 : CFinalCommitment :=
  ⟨1, 1, 50, [true, true, true], [true, true, true], kValid, 7, sigValid, sigValid⟩

/-- A commitment with too few validMembers bits for minSize 2. -/
def cC3 : CFinalCommitment := { cC2 with validMembers := [true, false, false] }

/-- Environment configuring only type 1. -/
def envC4 : Env := { envBase with llmqs := [(1, paramsA)] }

/-- A null-form commitment with empty bit-vectors (lengths 0, not the
configured size 3). -/
def cNull0 : CFinalCommitment :=
  ⟨1, 1, 5, [], [], CBLSPublicKey.null, 7, ⟨false, 0⟩, ⟨false, 0⟩⟩

/-- A null-form commitment with correctly sized all-clear bit-vectors. -/
def cNull3 : CFinalCommitment :=
  ⟨1, 1, 5, [false, false, false], [false, false, false], CBLSPublicKey.null, 7,
    ⟨false, 0⟩, ⟨false, 0⟩⟩

/-- Environment hashing a verification vector to its length. -/
def envC5 : Env := { envBase with serializeHashVvec := fun v => (v.length : UInt256) }

/-- A quorum whose commitment records verification-vector hash 2. -/
def qC5 : CQuorum :=
  ⟨paramsA, { cQ50 with quorumVvecHash := 2 }, .genesis 40, 60, [mnA], none,
    CBLSSecretKey.null, false⟩

/-- The empty manager state. -/
def stEmpty : ManagerState := ⟨[], [], [], ⟨[], []⟩⟩

/-- A manager state whose type-1 quorum cache holds qC5 under hash 40. -/
def stC6 : ManagerState := ⟨[(1, ⟨5, [(40, qC5)]⟩)], [], [], ⟨[], []⟩⟩

/-- A quorum holding a two-element verification vector. -/
def qVv : CQuorum := { qC5 with quorumVvec := some [kValid, kValid] }

/-- Environment for the duplicate-request scenario: masternode mode, type
1 configured, block 40 known, commitment for (1, 40) mined. -/
def envC8 : Env :=
  { envBase with
    fMasternodeMode := true
    llmqs := [(1, paramsA)]
    now := 100
    lookupBlockIndex := fun h => if h = 40 then some (.genesis 40) else none
    hasMinedCommitment := fun t h => decide (t = 1 ∧ h = 40) }

/-- A verified masternode peer with identity 200. -/
def peerC8 : CNode := ⟨70219, 200, false⟩

/-- The outstanding unexpired incoming request from peer 200. -/
def reqOldC8 : CQuorumDataRequest := ⟨1, 40, 1, 100, .UNDEFINED, false, 100⟩

/-- The duplicate incoming request from peer 200. -/
def reqC8 : CQuorumDataRequest := ⟨1, 40, 1, 100, .UNDEFINED, false, 100⟩

/-- State for the duplicate-request scenario: quorum qVv cached for
(1, 40) and an unexpired incoming-direction request from peer 200. -/
def stC8 : ManagerState :=
  ⟨[(1, ⟨5, [(40, qVv)]⟩)], [], [((200, false), reqOldC8)], ⟨[], []⟩⟩

/-- Environment for the QDATA response scenarios: masternode mode only. -/
def envC9 : Env := { envBase with fMasternodeMode := true }

/-- A verified masternode peer with identity 200. -/
def peerC9 : CNode := ⟨70219, 200, false⟩

/-- An arriving QDATA response envelope. -/
def reqC9 : CQuorumDataRequest := ⟨1, 40, 1, 100, .NONE, false, 0⟩

/-- The outstanding outgoing request matching reqC9 on all echoed fields. -/
def entC9 : CQuorumDataRequest := ⟨1, 40, 1, 100, .UNDEFINED, false, 50⟩

/-- An outstanding outgoing request for a different quorum hash. -/
def entC9other : CQuorumDataRequest := ⟨1, 41, 1, 100, .UNDEFINED, false, 50⟩

/-- State with an already-processed outgoing request from peer 200. -/
def stC9proc : ManagerState :=
  ⟨[], [], [((200, true), { entC9 with fProcessed := true })], ⟨[], []⟩⟩

/-- State with an outgoing request from peer 200 that does not match reqC9. -/
def stC9mism : ManagerState := ⟨[], [], [((200, true), entC9other)], ⟨[], []⟩⟩

/-- State with the outgoing request matching reqC9. -/
def stC9match : ManagerState := ⟨[], [], [((200, true), entC9)], ⟨[], []⟩⟩

/-- Environment for the null-verification-vector scenario: commitment for
quorum block 40 mined but no DKG contributions available locally, so the
built quorum carries no verification vector. -/
def envX : Env :=
  { envBase with
    fMasternodeMode := true
    llmqs := [(1, paramsA)]
    lookupBlockIndex := fun h => if h = 40 then some (.genesis 40) else none
    hasMinedCommitment := fun t h => decide (t = 1 ∧ h = 40)
    getMinedCommitment := fun t h => if t = 1 ∧ h = 40 then some (cQ40, 40) else none
    getAllQuorumMembers := fun _ _ => [mnA] }

/-- Initial state for the null-verification-vector scenario: empty
per-type caches of capacity 5. -/
def stX0 : ManagerState := ⟨[(1, ⟨5, []⟩)], [(1, ⟨5, []⟩)], [], ⟨[], []⟩⟩

/-- A verified masternode peer with identity 200. -/
def peerX : CNode := ⟨70219, 200, false⟩

/-- The state after building (and caching) the vector-less quorum. -/
def stX1 : ManagerState := (GetQuorum envX stX0 1 (.genesis 40)).2

/-- The state after issuing the encrypted-contributions-only request. -/
def stX2 : ManagerState :=
  (RequestQuorumData envX stX1 (some peerX) 1 (some (.genesis 40)) 2 100).2.1

/-- The QDATA response echoing the encrypted-contributions-only request. -/
def respX : CQuorumDataRequest := ⟨1, 40, 2, 100, .NONE, false, 0⟩

/-- A three-block chain for the scan scenarios: hashes 5, 10, 20, with
mined commitments at 10 and 20. -/
def chainC7 : CBlockIndex := .next 20 (.next 10 (.genesis 5))

/-- Environment for the scan scenarios: type 1 configured, commitments
mined for anchor hashes 10 and 20, commitments loadable from storage. -/
def envC7 : Env :=
  { envBase with
    llmqs := [(1, paramsA)]
    hasMinedCommitment := fun t h => decide (t = 1 ∧ (h = 10 ∨ h = 20))
    getMinedCommitment := fun t h =>
      if t = 1 ∧ (h = 10 ∨ h = 20) then some ({ cQ50 with quorumHash := h }, h) else none
    getAllQuorumMembers := fun _ _ => [mnA] }

/-- Initial state for the scan scenarios: empty type-1 quorum cache of
capacity 5 and empty type-1 scan cache of capacity 4. -/
def stC7 : ManagerState := ⟨[(1, ⟨5, []⟩)], [(1, ⟨4, []⟩)], [], ⟨[], []⟩⟩

/-! Helper lemmas. -/

theorem verifySizes_eq_true (c : CFinalCommitment) (p : LLMQParams) :
    c.VerifySizes p = true ↔
      c.signers.length = p.size ∧ c.validMembers.length = p.size := by
  unfold CFinalCommitment.VerifySizes
  by_cases h1 : c.signers.length = p.size <;>
    by_cases h2 : c.validMembers.length = p.size <;> simp [h1, h2]

theorem verify_true_facts (env : Env) (c : CFinalCommitment) (pindex : CBlockIndex)
    (checkSigs : Bool) (h : c.Verify env pindex checkSigs = true) :
    ∃ p, lookupLLMQ env c.llmqType = some p ∧
      c.VerifySizes p = true ∧
      ¬c.CountValidMembers < p.minSize ∧
      ¬c.CountSigners < p.minSize ∧
      ((List.range' (env.getAllQuorumMembers c.llmqType pindex).length
          (p.size - (env.getAllQuorumMembers c.llmqType pindex).length)).all
        (fun i => !(c.validMembers.getD i false) && !(c.signers.getD i false))) = true := by
  unfold CFinalCommitment.Verify at h
  rw [Bool.and_eq_true] at h
  obtain ⟨-, h⟩ := h
  cases hp : lookupLLMQ env c.llmqType with
  | none => rw [hp] at h; exact absurd h (by simp)
  | some p =>
    rw [hp] at h
    simp only [Bool.and_eq_true, Bool.not_eq_true', decide_eq_false_iff_not] at h
    obtain ⟨⟨⟨⟨⟨⟨⟨⟨hA, hB⟩, hC⟩, -⟩, -⟩, -⟩, -⟩, hH⟩, -⟩ := h
    exact ⟨p, rfl, hA, hB, hC, hH⟩

theorem findDataRequest_set (st : ManagerState) (k : UInt256 × Bool)
    (r : CQuorumDataRequest) : findDataRequest (setDataRequest st k r) k = some r := by
  simp [findDataRequest, setDataRequest]

theorem applyQDATA_preserves_dataRequests (env : Env) (st1 : ManagerState)
    (request : CQuorumDataRequest) (vvecIn : BLSVerificationVector)
    (encIn : List CBLSIESEncryptedSecretKey) (s : ManagerState) (effs : List QEffect)
    (h : applyQDATA env st1 request vvecIn encIn = some (s, effs)) :
    s.dataRequests = st1.dataRequests := by
  unfold applyQDATA at h
  iterate 14
    all_goals try (dsimp only at h)
    all_goals try (split at h)
  any_goals exact Option.noConfusion h
  all_goals
    obtain ⟨h1, h2⟩ := Prod.mk.inj (Option.some.inj h)
  all_goals subst h1
  all_goals rfl

theorem setVerificationVector_true (env : Env) (q : CQuorum)
    (v : BLSVerificationVector) (q1 : CQuorum)
    (h : q.SetVerificationVector env v = (true, q1)) :
    q1 = { q with quorumVvec := some v } := by
  unfold CQuorum.SetVerificationVector at h
  split at h
  · simp at h
  · exact (Prod.mk.inj h).2.symm

theorem qdata_gate_reject (env : Env) (st : ManagerState) (pFrom : CNode)
    (request : CQuorumDataRequest) (vvecIn : BLSVerificationVector)
    (encIn : List CBLSIESEncryptedSecretKey) (entry : CQuorumDataRequest)
    (hgate : ¬((!env.fMasternodeMode ∧ !env.isWatchQuorumsEnabled) ∨
      (pFrom.verifiedProRegTxHash = 0 ∧ !pFrom.qwatch)))
    (hfind : findDataRequest st (pFrom.verifiedProRegTxHash, true) = some entry)
    (hproc : entry.fProcessed = true) :
    ProcessQDATA env st (some pFrom) request vvecIn encIn =
      some (st, [.err "Already received" 10]) := by
  simp only [ProcessQDATA, hfind]
  rw [if_neg hgate, if_pos hproc]

theorem mem_minedAncestors_hasMined (env : Env) (t : Nat) :
    ∀ s b : CBlockIndex, b ∈ minedAncestors env t s →
      env.hasMinedCommitment t b.blockHash = true := by
  intro s
  induction s with
  | genesis g =>
    intro b hb
    by_cases hm : env.hasMinedCommitment t g = true
    · simp only [minedAncestors, if_pos hm] at hb
      obtain rfl := List.mem_singleton.mp hb
      exact hm
    · simp only [minedAncestors, if_neg hm] at hb
      exact absurd hb (List.not_mem_nil b)
  | next hsh prev ih =>
    intro b hb
    simp only [minedAncestors] at hb
    rcases List.mem_append.mp hb with h1 | h2
    · by_cases hm : env.hasMinedCommitment t hsh = true
      · rw [if_pos hm] at h1
        obtain rfl := List.mem_singleton.mp h1
        exact hm
      · rw [if_neg hm] at h1
        exact absurd h1 (List.not_mem_nil b)
    · exact ih b h2

theorem minedAncestors_decomp (env : Env) (t : Nat) :
    ∀ (s : CBlockIndex) (k : Nat) (b : CBlockIndex),
      (minedAncestors env t s).get? k = some b →
      minedOpt env t b.pprev = (minedAncestors env t s).drop (k + 1) := by
  intro s
  induction s with
  | genesis g =>
    intro k b hb
    by_cases hm : env.hasMinedCommitment t g = true
    · simp only [minedAncestors, if_pos hm] at hb ⊢
      cases k with
      | zero =>
        rw [List.get?_cons_zero] at hb
        obtain rfl := Option.some.inj hb
        rfl
      | succ k2 => simp at hb
    · simp only [minedAncestors, if_neg hm] at hb
      simp at hb
  | next hsh prev ih =>
    intro k b hb
    by_cases hm : env.hasMinedCommitment t hsh = true
    · simp only [minedAncestors, if_pos hm, List.singleton_append] at hb ⊢
      cases k with
      | zero =>
        rw [List.get?_cons_zero] at hb
        obtain rfl := Option.some.inj hb
        rfl
      | succ k2 =>
        rw [List.get?_cons_succ] at hb
        rw [List.drop_succ_cons]
        exact ih k2 b hb
    · simp only [minedAncestors, if_neg hm, List.nil_append] at hb ⊢
      exact ih k b hb

theorem find?_update_assoc {α : Type} (t : Nat) (f : α → α) :
    ∀ (l : List (Nat × α)) (c : α),
      l.find? (fun e => e.1 = t) = some (t, c) →
      (l.map (fun e => if e.1 = t then (e.1, f e.2) else e)).find? (fun e => e.1 = t) =
        some (t, f c) := by
  intro l
  induction l with
  | nil => intro c h; exact absurd h (by simp)
  | cons e l ih =>
    intro c h
    by_cases he : e.1 = t
    · rw [List.find?_cons_of_pos _ (by simpa using he)] at h
      obtain rfl := Option.some.inj h
      simp only [List.map_cons, if_pos (show (t, c).1 = t from rfl)]
      rw [List.find?_cons_of_pos _ (by simp)]
      simp
    · rw [List.find?_cons_of_neg _ (by simpa using he)] at h
      simp only [List.map_cons, if_neg he]
      rw [List.find?_cons_of_neg _ (by simpa using he)]
      exact ih c h

theorem getMapCache_of_find? (st : ManagerState) (t : Nat) (c : LruCache CQuorum)
    (h : st.mapQuorumsCache.find? (fun e => e.1 = t) = some (t, c)) :
    getMapCache st t = c := by
  unfold getMapCache
  rw [h]
  rfl

theorem getScanCache_of_find? (st : ManagerState) (t : Nat)
    (c : LruCache (List CQuorum))
    (h : st.scanQuorumsCache.find? (fun e => e.1 = t) = some (t, c)) :
    getScanCache st t = c := by
  unfold getScanCache
  rw [h]
  rfl

theorem find?_updateMapCache (st : ManagerState) (t : Nat)
    (f : LruCache CQuorum → LruCache CQuorum) (c : LruCache CQuorum)
    (h : st.mapQuorumsCache.find? (fun e => e.1 = t) = some (t, c)) :
    (updateMapCache st t f).mapQuorumsCache.find? (fun e => e.1 = t) = some (t, f c) :=
  find?_update_assoc t f st.mapQuorumsCache c h

theorem find?_updateScanCache (st : ManagerState) (t : Nat)
    (f : LruCache (List CQuorum) → LruCache (List CQuorum))
    (c : LruCache (List CQuorum))
    (h : st.scanQuorumsCache.find? (fun e => e.1 = t) = some (t, c)) :
    (updateScanCache st t f).scanQuorumsCache.find? (fun e => e.1 = t) = some (t, f c) :=
  find?_update_assoc t f st.scanQuorumsCache c h

theorem readContributions_pindex (q : CQuorum) (env : Env) (db : EvoDb) :
    ((q.ReadContributions env db).2).pindexQuorum = q.pindexQuorum := by
  unfold CQuorum.ReadContributions
  dsimp only
  split
  · rfl
  · split <;> rfl

theorem buildContributions_pindex (env : Env) (fqc : CFinalCommitment) (q : CQuorum) :
    ((BuildQuorumContributions env fqc q).2).pindexQuorum = q.pindexQuorum := by
  unfold BuildQuorumContributions
  split
  · rfl
  · dsimp only
    split
    · rfl
    · rfl

theorem build_shape (env : Env) (st : ManagerState) (t : Nat) (b : CBlockIndex)
    (qc : CFinalCommitment) (mbh : UInt256)
    (heqc : env.getMinedCommitment t b.blockHash = some (qc, mbh)) :
    ∃ q db1, BuildQuorumFromCommitment env st t b =
      (some q, updateMapCache { st with evoDb := db1 } t
        (fun cc => cc.insert b.blockHash q)) ∧
      q.pindexQuorum = b := by
  unfold BuildQuorumFromCommitment
  dsimp only
  rw [heqc]
  dsimp only
  rcases hr : (baseQuorum env t b qc mbh).ReadContributions env st.evoDb with ⟨rb, rq⟩
  cases rb with
  | true =>
    refine ⟨rq, st.evoDb, by rfl, ?_⟩
    have hp := readContributions_pindex (baseQuorum env t b qc mbh) env st.evoDb
    rw [hr] at hp
    exact hp
  | false =>
    rcases hbc : BuildQuorumContributions env qc (baseQuorum env t b qc mbh) with ⟨ok, qb⟩
    have hp := buildContributions_pindex env qc (baseQuorum env t b qc mbh)
    rw [hbc] at hp
    cases ok with
    | true => exact ⟨qb, qb.WriteContributions env st.evoDb, by rfl, hp⟩
    | false => exact ⟨qb, st.evoDb, by rfl, hp⟩

theorem getQuorum_cache_hit (env : Env) (st : ManagerState) (t : Nat)
    (b : CBlockIndex) (q : CQuorum)
    (h1 : env.hasMinedCommitment t b.blockHash = true)
    (h2 : (getMapCache st t).get b.blockHash = some q) :
    GetQuorum env st t b = (some q, st) := by
  simp [GetQuorum, HasQuorum, h1, h2]

theorem getQuorum_build (env : Env) (st : ManagerState) (t : Nat) (b : CBlockIndex)
    (h1 : env.hasMinedCommitment t b.blockHash = true)
    (h2 : (getMapCache st t).get b.blockHash = none) :
    GetQuorum env st t b = BuildQuorumFromCommitment env st t b := by
  simp [GetQuorum, HasQuorum, h1, h2]

theorem getQuorum_isSome (env : Env) (st : ManagerState) (t : Nat) (b : CBlockIndex)
    (h1 : env.hasMinedCommitment t b.blockHash = true)
    (h2 : (env.getMinedCommitment t b.blockHash).isSome = true) :
    ∃ q st1, GetQuorum env st t b = (some q, st1) := by
  cases hc : (getMapCache st t).get b.blockHash with
  | some q => exact ⟨q, st, getQuorum_cache_hit env st t b q h1 hc⟩
  | none =>
    rw [getQuorum_build env st t b h1 hc]
    obtain ⟨⟨qc, mbh⟩, heqc⟩ := Option.isSome_iff_exists.mp h2
    obtain ⟨q, db1, heq, -⟩ := build_shape env st t b qc mbh heqc
    exact ⟨q, _, heq⟩

theorem appendQuorums_some (env : Env) (t : Nat) :
    ∀ (blocks : List CBlockIndex) (st : ManagerState) (acc : List CQuorum),
      (∀ b ∈ blocks, env.hasMinedCommitment t b.blockHash = true) →
      (∀ b ∈ blocks, (env.getMinedCommitment t b.blockHash).isSome = true) →
      ∃ V st1, appendQuorums env t st acc blocks = some (acc ++ V, st1) ∧
        V.length = blocks.length := by
  intro blocks
  induction blocks with
  | nil =>
    intro st acc _ _
    exact ⟨[], st, by simp [appendQuorums], rfl⟩
  | cons b rest ih =>
    intro st acc hm hc
    obtain ⟨q, st1, hq⟩ := getQuorum_isSome env st t b
      (hm b (List.mem_cons_self b rest)) (hc b (List.mem_cons_self b rest))
    obtain ⟨V, st2, happ, hlen⟩ := ih st1 (acc ++ [q])
      (fun x hx => hm x (List.mem_cons_of_mem b hx))
      (fun x hx => hc x (List.mem_cons_of_mem b hx))
    refine ⟨q :: V, st2, ?_, by simp [hlen]⟩
    simp only [appendQuorums, hq]
    rw [happ, List.append_assoc]
    rfl

theorem appendQuorums_hits (env : Env) (t : Nat) :
    ∀ (blocks : List CBlockIndex) (W : List CQuorum) (st : ManagerState)
      (acc : List CQuorum),
      W.length = blocks.length →
      (∀ i b w, blocks.get? i = some b → W.get? i = some w →
        env.hasMinedCommitment t b.blockHash = true ∧
        (getMapCache st t).get b.blockHash = some w) →
      appendQuorums env t st acc blocks = some (acc ++ W, st) := by
  intro blocks
  induction blocks with
  | nil =>
    intro W st acc hlen _
    obtain rfl : W = [] := List.length_eq_zero.mp hlen
    simp [appendQuorums]
  | cons b rest ih =>
    intro W st acc hlen hpt
    cases W with
    | nil => simp at hlen
    | cons w W2 =>
      obtain ⟨h1, h2⟩ := hpt 0 b w rfl rfl
      simp only [appendQuorums, getQuorum_cache_hit env st t b w h1 h2]
      have hrec := ih W2 st (acc ++ [w]) (by simpa using hlen)
        (fun i b2 w2 hb hw => hpt (i + 1) b2 w2 (by simpa using hb) (by simpa using hw))
      rw [hrec, List.append_assoc]
      rfl

theorem find?_key_nodup {α : Type} :
    ∀ (l : List (UInt256 × α)), (l.map Prod.fst).Nodup →
      ∀ (k : UInt256) (v : α), (k, v) ∈ l →
        l.find? (fun e => e.1 = k) = some (k, v) := by
  intro l
  induction l with
  | nil => intro _ k v hmem; exact absurd hmem (List.not_mem_nil _)
  | cons e l ih =>
    intro hnd k v hmem
    have hnd2 : (e.1 :: l.map Prod.fst).Nodup := by simpa using hnd
    by_cases he : e.1 = k
    · rw [List.find?_cons_of_pos _ (by simpa using he)]
      rcases List.mem_cons.mp hmem with heq | hmem2
      · rw [← heq]
      · exfalso
        have hk : k ∈ l.map Prod.fst := List.mem_map.mpr ⟨(k, v), hmem2, rfl⟩
        exact (List.nodup_cons.mp hnd2).1 (he ▸ hk)
    · rw [List.find?_cons_of_neg _ (by simpa using he)]
      rcases List.mem_cons.mp hmem with heq | hmem2
      · exact absurd (by rw [← heq]) he
      · exact ih (List.nodup_cons.mp hnd2).2 k v hmem2

theorem zip_mem_of_get? {α β : Type} :
    ∀ (l1 : List α) (l2 : List β) (k : Nat) (a : α) (b : β),
      l1.get? k = some a → l2.get? k = some b → (a, b) ∈ l1.zip l2 := by
  intro l1
  induction l1 with
  | nil => intro l2 k a b h _; simp at h
  | cons x l1 ih =>
    intro l2 k a b h1 h2
    cases l2 with
    | nil => simp at h2
    | cons y l2 =>
      cases k with
      | zero =>
        rw [List.get?_cons_zero] at h1 h2
        obtain rfl := Option.some.inj h1
        obtain rfl := Option.some.inj h2
        simp [List.zip_cons_cons]
      | succ k2 =>
        rw [List.get?_cons_succ] at h1 h2
        simp only [List.zip_cons_cons]
        exact List.mem_cons_of_mem _ (ih l2 k2 a b h1 h2)

theorem appendQuorums_cold (env : Env) (t : Nat) :
    ∀ (blocks : List CBlockIndex) (st : ManagerState) (acc : List CQuorum)
      (c : LruCache CQuorum),
      st.mapQuorumsCache.find? (fun e => e.1 = t) = some (t, c) →
      (∀ b ∈ blocks, env.hasMinedCommitment t b.blockHash = true) →
      (∀ b ∈ blocks, (env.getMinedCommitment t b.blockHash).isSome = true) →
      (∀ b ∈ blocks, c.get b.blockHash = none) →
      (blocks.map CBlockIndex.blockHash).Nodup →
      c.entries.length + blocks.length ≤ c.maxSize →
      ∃ (V : List CQuorum) (st1 : ManagerState),
        appendQuorums env t st acc blocks = some (acc ++ V, st1) ∧
        V.map (fun q => q.pindexQuorum) = blocks ∧
        st1.mapQuorumsCache.find? (fun e => e.1 = t) =
          some (t, ⟨c.maxSize,
            ((blocks.map CBlockIndex.blockHash).zip V).reverse ++ c.entries⟩) ∧
        st1.scanQuorumsCache = st.scanQuorumsCache ∧
        st1.dataRequests = st.dataRequests := by
  intro blocks
  induction blocks with
  | nil =>
    intro st acc c hfind _ _ _ _ _
    exact ⟨[], st, by simp [appendQuorums], rfl, by simpa using hfind, rfl, rfl⟩
  | cons b rest ih =>
    intro st acc c hfind hmined hcom hget hnd hcap
    have hM : getMapCache st t = c := getMapCache_of_find? st t c hfind
    have hmb := hmined b (List.mem_cons_self b rest)
    have hcb := hcom b (List.mem_cons_self b rest)
    have hgb : (getMapCache st t).get b.blockHash = none := by
      rw [hM]; exact hget b (List.mem_cons_self b rest)
    obtain ⟨⟨qc, mbh⟩, heqc⟩ := Option.isSome_iff_exists.mp hcb
    obtain ⟨q, db1, hbs, hqp⟩ := build_shape env st t b qc mbh heqc
    have hGQ : GetQuorum env st t b =
        (some q, updateMapCache { st with evoDb := db1 } t
          (fun cc => cc.insert b.blockHash q)) := by
      rw [getQuorum_build env st t b hmb hgb, hbs]
    have hfind2 : (updateMapCache { st with evoDb := db1 } t
        (fun cc => cc.insert b.blockHash q)).mapQuorumsCache.find?
          (fun e => e.1 = t) = some (t, c.insert b.blockHash q) :=
      find?_updateMapCache { st with evoDb := db1 } t _ c hfind
    have hfnone : c.entries.find? (fun e => e.1 = b.blockHash) = none := by
      have hnone := hget b (List.mem_cons_self b rest)
      unfold LruCache.get at hnone
      exact Option.map_eq_none'.mp hnone
    have hins : c.insert b.blockHash q = ⟨c.maxSize, (b.blockHash, q) :: c.entries⟩ := by
      unfold LruCache.insert
      have hfilt : c.entries.filter (fun e => decide ¬(e.1 = b.blockHash)) = c.entries := by
        apply List.filter_eq_self.mpr
        intro a ha
        have hx := List.find?_eq_none.mp hfnone a ha
        simpa using hx
      congr 1
      rw [hfilt]
      apply List.take_of_length_le
      simp only [List.length_cons]
      have hcap2 : c.entries.length + (rest.length + 1) ≤ c.maxSize := by simpa using hcap
      omega
    rw [hins] at hfind2
    have hcap2 : c.entries.length + (rest.length + 1) ≤ c.maxSize := by simpa using hcap
    have hndc : (b.blockHash :: rest.map CBlockIndex.blockHash).Nodup := by simpa using hnd
    have hnd2 := List.nodup_cons.mp hndc
    obtain ⟨V, st1, happ, hmapV, hfind1, hscan1, hdr1⟩ :=
      ih (updateMapCache { st with evoDb := db1 } t (fun cc => cc.insert b.blockHash q))
        (acc ++ [q]) ⟨c.maxSize, (b.blockHash, q) :: c.entries⟩
        hfind2
        (fun x hx => hmined x (List.mem_cons_of_mem b hx))
        (fun x hx => hcom x (List.mem_cons_of_mem b hx))
        (by
          intro b2 hb2
          have hne : ¬((b.blockHash, q).1 = b2.blockHash) := by
            intro hcontra
            have hc2 : b.blockHash = b2.blockHash := hcontra
            exact hnd2.1 (hc2 ▸ List.mem_map_of_mem CBlockIndex.blockHash hb2)
          unfold LruCache.get
          dsimp only
          rw [List.find?_cons_of_neg _ (by simpa using hne)]
          have hx := hget b2 (List.mem_cons_of_mem b hb2)
          unfold LruCache.get at hx
          exact hx)
        hnd2.2
        (by simp only [List.length_cons]; omega)
    refine ⟨q :: V, st1, ?_, ?_, ?_, ?_, ?_⟩
    · simp only [appendQuorums, hGQ]
      rw [happ, List.append_assoc]
      rfl
    · simp [hmapV, hqp]
    · rw [hfind1]
      simp [List.zip_cons_cons, List.reverse_cons, List.append_assoc]
    · exact hscan1
    · exact hdr1

theorem scanQuorums_cold (env : Env) (st : ManagerState) (t : Nat)
    (pstart : CBlockIndex) (N : Nat) (hN0 : ¬N = 0)
    (hsc : (getScanCache st t).get pstart.blockHash = none)
    {V : List CQuorum} {st1 : ManagerState}
    (happ : appendQuorums env t st []
      ((minedAncestors env t pstart).take (max N (getScanCache st t).maxSize)) =
      some (V, st1)) :
    ScanQuorums env st t (some pstart) N =
      some (V.take N,
        if V.length > 0 then
          updateScanCache st1 t
            (fun c => c.insert pstart.blockHash (V.take (min V.length c.maxSize)))
        else st1) := by
  simp only [ScanQuorums]
  rw [if_neg hN0]
  rw [hsc]
  dsimp only [GetMinedCommitmentsUntilBlock, minedOpt]
  rw [happ]

theorem scanQuorums_warm_exact (env : Env) (st : ManagerState) (t : Nat)
    (pstart : CBlockIndex) (N : Nat) (C : List CQuorum) (hN0 : ¬N = 0)
    (hsc : (getScanCache st t).get pstart.blockHash = some C)
    (hlen : C.length = N) :
    ScanQuorums env st t (some pstart) N = some (C, st) := by
  simp only [ScanQuorums]
  rw [if_neg hN0]
  rw [hsc]
  dsimp only
  rw [if_pos hlen]

theorem scanQuorums_warm_over (env : Env) (st : ManagerState) (t : Nat)
    (pstart : CBlockIndex) (N : Nat) (C : List CQuorum) (hN0 : ¬N = 0)
    (hsc : (getScanCache st t).get pstart.blockHash = some C)
    (hgt : C.length > N) :
    ScanQuorums env st t (some pstart) N = some (C.take N, st) := by
  simp only [ScanQuorums]
  rw [if_neg hN0]
  rw [hsc]
  dsimp only
  rw [if_neg (by omega), if_pos hgt]

theorem scanQuorums_warm_under (env : Env) (st : ManagerState) (t : Nat)
    (pstart : CBlockIndex) (N : Nat) (C : List CQuorum) (hN0 : ¬N = 0)
    (hsc : (getScanCache st t).get pstart.blockHash = some C)
    (hlt : C.length < N) (hpos : 0 < C.length)
    {V : List CQuorum} {st1 : ManagerState}
    (happ : appendQuorums env t st C
      ((minedOpt env t
        ((C.getLast?.map (fun q => q.pindexQuorum.pprev)).getD none)).take
        (N - C.length)) = some (V, st1)) :
    ScanQuorums env st t (some pstart) N = some (V.take N, st1) := by
  simp only [ScanQuorums]
  rw [if_neg hN0]
  rw [hsc]
  dsimp only
  rw [if_neg (by omega), if_neg (by omega), if_pos hpos, if_pos hpos]
  dsimp only [GetMinedCommitmentsUntilBlock]
  rw [happ]

theorem scanQuorums_maximal (env : Env) (st : ManagerState) (t : Nat)
    (pstart : CBlockIndex) (N : Nat)
    (hsc : (getScanCache st t).get pstart.blockHash = none)
    (hcom : ∀ b ∈ minedAncestors env t pstart,
      (env.getMinedCommitment t b.blockHash).isSome = true)
    (hN : (minedAncestors env t pstart).length ≤ N) :
    ∃ r st1, ScanQuorums env st t (some pstart) N = some (r, st1) ∧
      r.length = (minedAncestors env t pstart).length := by
  by_cases hN0 : N = 0
  · subst hN0
    refine ⟨[], st, by simp [ScanQuorums], ?_⟩
    simp only [List.length_nil]
    omega
  · obtain ⟨V, st1, happ, hlen⟩ := appendQuorums_some env t
      ((minedAncestors env t pstart).take (max N (getScanCache st t).maxSize)) st []
      (fun b hb => mem_minedAncestors_hasMined env t pstart b (List.take_subset _ _ hb))
      (fun b hb => hcom b (List.take_subset _ _ hb))
    rw [List.nil_append] at happ
    refine ⟨V.take N, _, scanQuorums_cold env st t pstart N hN0 hsc happ, ?_⟩
    rw [List.length_take, hlen, List.length_take]
    omega

theorem scanQuorums_deterministic (env : Env) (st : ManagerState) (t : Nat)
    (pstart : CBlockIndex) (N Mq M : Nat)
    (hmapf : st.mapQuorumsCache.find? (fun e => e.1 = t) = some (t, ⟨Mq, []⟩))
    (hscanf : st.scanQuorumsCache.find? (fun e => e.1 = t) = some (t, ⟨M, []⟩))
    (hcapT : (minedAncestors env t pstart).length ≤ Mq)
    (hnd : ((minedAncestors env t pstart).map CBlockIndex.blockHash).Nodup)
    (hcom : ∀ b ∈ minedAncestors env t pstart,
      (env.getMinedCommitment t b.blockHash).isSome = true) :
    ∃ r1 s1 r2 s2, ScanQuorums env st t (some pstart) N = some (r1, s1) ∧
      ScanQuorums env s1 t (some pstart) N = some (r2, s2) ∧ r2 = r1 := by
  by_cases hN0 : N = 0
  · subst hN0
    exact ⟨[], st, [], st, by simp [ScanQuorums], by simp [ScanQuorums], rfl⟩
  · have hscC : getScanCache st t = ⟨M, []⟩ := getScanCache_of_find? st t _ hscanf
    have hsc : (getScanCache st t).get pstart.blockHash = none := by rw [hscC]; rfl
    set A := minedAncestors env t pstart with hAdef
    set ms := (getScanCache st t).maxSize with hmsdef
    have hmsM : ms = M := by rw [hmsdef, hscC]
    set L := A.take (max N ms) with hLdef
    have hndL : (L.map CBlockIndex.blockHash).Nodup :=
      List.Nodup.sublist (List.Sublist.map _ (List.take_sublist _ _)) hnd
    obtain ⟨V, st1, happ, hmapV, hfind1, hscan1, hdr1⟩ :=
      appendQuorums_cold env t L st [] ⟨Mq, []⟩ hmapf
        (fun b hb => mem_minedAncestors_hasMined env t pstart b (List.take_subset _ _ hb))
        (fun b hb => hcom b (List.take_subset _ _ hb))
        (fun b _ => rfl)
        hndL
        (by
          simp only [List.length_nil, Nat.zero_add, hLdef, List.length_take]
          omega)
    rw [List.nil_append] at happ
    have hcall1 := scanQuorums_cold env st t pstart N hN0 hsc happ
    have hlenV : V.length = L.length := by
      have hx := congrArg List.length hmapV
      simpa using hx
    have hLlen : L.length = min (max N ms) A.length := by
      rw [hLdef, List.length_take]
    rcases Nat.eq_zero_or_pos V.length with hK0 | hKpos
    · have hV : V = [] := List.length_eq_zero.mp hK0
      subst hV
      rw [if_neg (by simp)] at hcall1
      have hL0 : L = [] := List.length_eq_zero.mp (by omega)
      have hgsc1 : getScanCache st1 t = getScanCache st t := by
        unfold getScanCache
        rw [hscan1]
      have hsc1 : (getScanCache st1 t).get pstart.blockHash = none := by
        rw [hgsc1, hscC]; rfl
      have happ2 : appendQuorums env t st1 []
          (A.take (max N (getScanCache st1 t).maxSize)) = some ([], st1) := by
        rw [hgsc1, ← hmsdef, ← hLdef, hL0]
        rfl
      have hcall2 := scanQuorums_cold env st1 t pstart N hN0 hsc1 happ2
      rw [if_neg (by simp)] at hcall2
      exact ⟨List.take N [], st1, List.take N [], st1, hcall1, hcall2, rfl⟩
    · rw [if_pos hKpos] at hcall1
      -- the get fact for every scanned quorum in the populated map cache
      have hgm1 : getMapCache st1 t =
          ⟨Mq, ((L.map CBlockIndex.blockHash).zip V).reverse⟩ := by
        have hx := getMapCache_of_find? st1 t _ hfind1
        rw [hx]
        simp
      have hgetV : ∀ i b w, L.get? i = some b → V.get? i = some w →
          (getMapCache st1 t).get b.blockHash = some w := by
        intro i b w hb hw
        rw [hgm1]
        unfold LruCache.get
        have hmemz : (b.blockHash, w) ∈ ((L.map CBlockIndex.blockHash).zip V).reverse := by
          rw [List.mem_reverse]
          refine zip_mem_of_get? _ _ i _ _ ?_ hw
          rw [List.get?_map, hb]
          rfl
        have hkeys : ((((L.map CBlockIndex.blockHash).zip V).reverse).map Prod.fst).Nodup := by
          rw [List.map_reverse, List.map_fst_zip _ _ (by simp only [List.length_map]; omega),
            List.nodup_reverse]
          exact hndL
        rw [find?_key_nodup _ hkeys b.blockHash w hmemz]
        rfl
      have hmined : ∀ i b, L.get? i = some b →
          env.hasMinedCommitment t b.blockHash = true := by
        intro i b hb
        exact mem_minedAncestors_hasMined env t pstart b
          (List.take_subset _ _ (List.get?_mem hb))
      -- the state after call 1
      have hscanf1 : st1.scanQuorumsCache.find? (fun e => e.1 = t) = some (t, ⟨M, []⟩) := by
        rw [hscan1]; exact hscanf
      have hfinds1 := find?_updateScanCache st1 t
        (fun c => c.insert pstart.blockHash (V.take (min V.length c.maxSize))) _ hscanf1
      set s1 := updateScanCache st1 t
        (fun c => c.insert pstart.blockHash (V.take (min V.length c.maxSize))) with hs1def
      set C := V.take (min V.length M) with hCdef
      have hfinds1x : s1.scanQuorumsCache.find? (fun e => e.1 = t) =
          some (t, ⟨M, [(pstart.blockHash, C)].take M⟩) := by
        rw [hfinds1]
        rfl
      have hscs1 : getScanCache s1 t = ⟨M, [(pstart.blockHash, C)].take M⟩ :=
        getScanCache_of_find? s1 t _ hfinds1x
      have hgms1 : getMapCache s1 t = getMapCache st1 t := by
        unfold getMapCache
        rw [hs1def]
        rfl
      have hClen : C.length = min V.length M := by
        rw [hCdef, List.length_take]
        omega
      by_cases hM0 : M = 0
      · -- cache capacity zero: the scan entry is not retained, call 2 is cold again
        subst hM0
        have hsc2 : (getScanCache s1 t).get pstart.blockHash = none := by
          rw [hscs1]
          rfl
        have hms1 : (getScanCache s1 t).maxSize = ms := by
          rw [hscs1, hmsM]
        have hL2 : A.take (max N (getScanCache s1 t).maxSize) = L := by
          rw [hms1, ← hLdef]
        have happ2 : appendQuorums env t s1 [] L = some ([] ++ V, s1) := by
          apply appendQuorums_hits env t L V s1 [] hlenV
          intro i b w hb hw
          refine ⟨hmined i b hb, ?_⟩
          rw [hgms1]
          exact hgetV i b w hb hw
        rw [List.nil_append] at happ2
        have happ2x : appendQuorums env t s1 []
            (A.take (max N (getScanCache s1 t).maxSize)) = some (V, s1) := by
          rw [hL2]
          exact happ2
        have hcall2 := scanQuorums_cold env s1 t pstart N hN0 hsc2 happ2x
        exact ⟨V.take N, s1, V.take N, _, hcall1, hcall2, rfl⟩
      · -- positive scan-cache capacity: call 2 hits the cached prefix
        have htake1 : [(pstart.blockHash, C)].take M = [(pstart.blockHash, C)] :=
          List.take_of_length_le (by simp; omega)
        have hsc2 : (getScanCache s1 t).get pstart.blockHash = some C := by
          rw [hscs1, htake1]
          unfold LruCache.get
          rw [List.find?_cons_of_pos _ (by simp)]
          rfl
        have hcnpos : 0 < C.length := by
          rw [hClen]
          omega
        have hCtake : C = V.take C.length := by
          rw [hClen]
        rcases lt_trichotomy C.length N with hcN | hcN | hcN
        · -- cached subset: call 2 extends from the last cached quorum's parent
          have hlt1 : C.length - 1 < V.length := by omega
          have hlt1L : C.length - 1 < L.length := by omega
          obtain ⟨w, hw⟩ : ∃ w, V.get? (C.length - 1) = some w :=
            ⟨_, List.get?_eq_get hlt1⟩
          obtain ⟨blast, hblast⟩ : ∃ b, L.get? (C.length - 1) = some b :=
            ⟨_, List.get?_eq_get hlt1L⟩
          have hwb : w.pindexQuorum = blast := by
            have hx := congrArg (fun l => l.get? (C.length - 1)) hmapV
            simp only [List.get?_map] at hx
            rw [hw, hblast] at hx
            exact Option.some.inj hx
          have hgl : C.getLast? = some w := by
            rw [List.getLast?_eq_get?]
            have hx : C.get? (C.length - 1) = V.get? (C.length - 1) := by
              have hy := @List.get?_take _ V C.length (C.length - 1)
                (show C.length - 1 < C.length by omega)
              rw [← hCtake] at hy
              exact hy
            rw [hx, hw]
          have hAlast : A.get? (C.length - 1) = some blast := by
            rw [← List.get?_take (show C.length - 1 < max N ms by omega)]
            exact hLdef ▸ hblast
          have hdecomp : minedOpt env t blast.pprev = A.drop C.length := by
            have hx := minedAncestors_decomp env t pstart (C.length - 1) blast
              (hAdef ▸ hAlast)
            rw [← hAdef] at hx
            rw [show C.length - 1 + 1 = C.length by omega] at hx
            exact hx
          set blocks2 := (A.drop C.length).take (N - C.length) with hblocks2def
          set W := (V.drop C.length).take (N - C.length) with hWdef
          have hlenW : W.length = blocks2.length := by
            rw [hWdef, hblocks2def]
            simp only [List.length_take, List.length_drop]
            omega
          have happ2 : appendQuorums env t s1 C blocks2 = some (C ++ W, s1) := by
            apply appendQuorums_hits env t blocks2 W s1 C hlenW
            intro i b w2 hb hw2
            have hibound : i < blocks2.length := by
              rcases List.get?_eq_some.mp hb with ⟨hx, -⟩
              exact hx
            have hiN : i < N - C.length := by
              rw [hblocks2def] at hibound
              simp only [List.length_take, List.length_drop] at hibound
              omega
            have hbA : A.get? (C.length + i) = some b := by
              rw [hblocks2def, List.get?_take hiN, List.get?_drop] at hb
              exact hb
            have hwV : V.get? (C.length + i) = some w2 := by
              rw [hWdef, List.get?_take hiN, List.get?_drop] at hw2
              exact hw2
            have hbL : L.get? (C.length + i) = some b := by
              rw [hLdef, List.get?_take (show C.length + i < max N ms by omega)]
              exact hbA
            refine ⟨hmined (C.length + i) b hbL, ?_⟩
            rw [hgms1]
            exact hgetV (C.length + i) b w2 hbL hwV
          have hblocksEq : (minedOpt env t
              ((C.getLast?.map (fun q => q.pindexQuorum.pprev)).getD none)).take
              (N - C.length) = blocks2 := by
            rw [hgl]
            simp only [Option.map_some', Option.getD_some]
            rw [hwb, hdecomp, hblocks2def]
          have hcall2 := scanQuorums_warm_under env s1 t pstart N C hN0 hsc2 hcN hcnpos
            (by rw [hblocksEq]; exact happ2)
          refine ⟨V.take N, s1, (C ++ W).take N, s1, hcall1, hcall2, ?_⟩
          have hCW : C ++ W = V.take N := by
            have hsplit := List.take_add V C.length (N - C.length)
            rw [← hCtake] at hsplit
            rw [show C.length + (N - C.length) = N by omega] at hsplit
            rw [hWdef]
            exact hsplit.symm
          rw [hCW, List.take_take]
          congr 1
          omega
        · -- cached size equals the request: call 2 returns the cached list
          have hcall2 := scanQuorums_warm_exact env s1 t pstart N C hN0 hsc2 hcN
          refine ⟨V.take N, s1, C, s1, hcall1, hcall2, ?_⟩
          rw [hCtake, hcN]
        · -- cached superset: call 2 truncates the cached list
          have hcall2 := scanQuorums_warm_over env s1 t pstart N C hN0 hsc2 hcN
          refine ⟨V.take N, s1, C.take N, s1, hcall1, hcall2, ?_⟩
          rw [hCtake, List.take_take]
          congr 1
          omega


/-- C1: CheckLLMQCommitment rejects a payload that does not deserialize
fully with reason bad-qc-payload; with the payload deserialized and its
version in range, a declared height different from pindexPrev height plus
one is rejected with bad-qc-height; with the height also correct, a
quorum hash that is unknown to the block index, or that resolves to a
block that is not the active-chain ancestor at its height, is rejected
with bad-qc-quorum-hash (the checks fire in source order). -/
theorem c1_check_commitment_reject_reasons (env : Env) (tx : CTransaction)
    (pindexPrev : CBlockIndex) :
    (GetTxPayload env tx = none →
      CheckLLMQCommitment env tx pindexPrev = .error "bad-qc-payload") ∧
    (∀ qcTx, GetTxPayload env tx = some qcTx →
      ¬(qcTx.nVersion = 0 ∨ qcTx.nVersion > CFinalCommitmentTxPayload.CURRENT_VERSION) →
      qcTx.nHeight ≠ pindexPrev.nHeight + 1 →
      CheckLLMQCommitment env tx pindexPrev = .error "bad-qc-height") ∧
    (∀ qcTx, GetTxPayload env tx = some qcTx →
      ¬(qcTx.nVersion = 0 ∨ qcTx.nVersion > CFinalCommitmentTxPayload.CURRENT_VERSION) →
      qcTx.nHeight = pindexPrev.nHeight + 1 →
      (env.lookupBlockIndex qcTx.commitment.quorumHash = none ∨
        ∃ pQuorumBaseBlockIndex,
          env.lookupBlockIndex qcTx.commitment.quorumHash = some pQuorumBaseBlockIndex ∧
          pindexPrev.getAncestor pQuorumBaseBlockIndex.nHeight ≠ some pQuorumBaseBlockIndex) →
      CheckLLMQCommitment env tx pindexPrev = .error "bad-qc-quorum-hash") := by
  refine ⟨fun h => ?_, fun qcTx h hv hh => ?_, fun qcTx h hv hh hq => ?_⟩
  · simp only [CheckLLMQCommitment, h]
  · simp only [CheckLLMQCommitment, h]
    rw [if_neg hv, if_pos hh]
  · simp only [CheckLLMQCommitment, h]
    rw [if_neg hv, if_neg (fun hne => hne hh)]
    rcases hq with hq | ⟨b, hb, hanc⟩
    · simp only [hq]
    · simp only [hb]
      rw [if_pos hanc]

/-- C1 witness: concrete rejections for a malformed payload, a wrong
height, an unknown quorum hash and a side-branch quorum hash. -/
theorem c1_check_commitment_reject_reasons_witness :
    CheckLLMQCommitment envC1 ⟨[9]⟩ prevC1 = .error "bad-qc-payload" ∧
    CheckLLMQCommitment envC1 ⟨[1]⟩ prevC1 = .error "bad-qc-height" ∧
    CheckLLMQCommitment envC1 ⟨[2]⟩ prevC1 = .error "bad-qc-quorum-hash" ∧
    CheckLLMQCommitment envC1 ⟨[3]⟩ prevC1 = .error "bad-qc-quorum-hash" :=
  ⟨(c1_check_commitment_reject_reasons envC1 ⟨[9]⟩ prevC1).1 rfl,
   (c1_check_commitment_reject_reasons envC1 ⟨[1]⟩ prevC1).2.1 ⟨1, 7, cQ50⟩ rfl
     (by decide) (by decide),
   (c1_check_commitment_reject_reasons envC1 ⟨[2]⟩ prevC1).2.2 ⟨1, 3, cQ50⟩ rfl
     (by decide) (by decide) (Or.inl rfl),
   (c1_check_commitment_reject_reasons envC1 ⟨[3]⟩ prevC1).2.2 ⟨1, 3, cQ40⟩ rfl
     (by decide) (by decide) (Or.inr ⟨.genesis 40, rfl, by decide⟩)⟩

/-- C2: Verify returns false whenever a validMembers or signers bit is
set at an index at or beyond the length of the member list resolved for
the anchor block. -/
theorem c2_verify_rejects_bits_beyond_members (env : Env) (c : CFinalCommitment)
    (pindex : CBlockIndex) (checkSigs : Bool) (i : Nat)
    (hi : (env.getAllQuorumMembers c.llmqType pindex).length ≤ i)
    (hbit : c.validMembers.getD i false = true ∨ c.signers.getD i false = true) :
    c.Verify env pindex checkSigs = false := by
  cases hb : c.Verify env pindex checkSigs with
  | false => rfl
  | true =>
    exfalso
    obtain ⟨p, -, hsz, -, -, hall⟩ := verify_true_facts env c pindex checkSigs hb
    obtain ⟨hs, hv⟩ := (verifySizes_eq_true c p).mp hsz
    by_cases hip : i < p.size
    · have hmem : i ∈ List.range' (env.getAllQuorumMembers c.llmqType pindex).length
          (p.size - (env.getAllQuorumMembers c.llmqType pindex).length) := by
        rw [List.mem_range'_1]
        omega
      have hok := List.all_eq_true.mp hall i hmem
      rw [Bool.and_eq_true, Bool.not_eq_true', Bool.not_eq_true'] at hok
      rcases hbit with hb1 | hb1
      · rw [hok.1] at hb1; exact Bool.false_ne_true hb1
      · rw [hok.2] at hb1; exact Bool.false_ne_true hb1
    · rcases hbit with hb1 | hb1
      · have hd : c.validMembers.getD i false = false :=
          List.getD_eq_default _ _ (by omega)
        rw [hd] at hb1; exact Bool.false_ne_true hb1
      · have hd : c.signers.getD i false = false :=
          List.getD_eq_default _ _ (by omega)
        rw [hd] at hb1; exact Bool.false_ne_true hb1

/-- C2 witness: a commitment with a signers bit at index 2 while the
registry resolves a single member is rejected. -/
theorem c2_verify_rejects_bits_beyond_members_witness :
    cC2.Verify envC2 (.genesis 10) true = false :=
  c2_verify_rejects_bits_beyond_members envC2 cC2 (.genesis 10) true 2
    (by decide) (Or.inr (by decide))

/-- C3: Verify returns false whenever the count of validMembers bits or
the count of signers bits is below the configured minimum size of the
commitment's quorum type. -/
theorem c3_verify_rejects_low_counts (env : Env) (c : CFinalCommitment)
    (pindex : CBlockIndex) (checkSigs : Bool) (p : LLMQParams)
    (hp : lookupLLMQ env c.llmqType = some p)
    (hcnt : c.CountValidMembers < p.minSize ∨ c.CountSigners < p.minSize) :
    c.Verify env pindex checkSigs = false := by
  cases hb : c.Verify env pindex checkSigs with
  | false => rfl
  | true =>
    exfalso
    obtain ⟨p2, hp2, -, hvm, hsg, -⟩ := verify_true_facts env c pindex checkSigs hb
    rw [hp] at hp2
    obtain rfl : p = p2 := Option.some.inj hp2
    rcases hcnt with h | h
    · exact hvm h
    · exact hsg h

/-- C3 witness: a commitment with one validMembers bit against minimum
size 2 is rejected. -/
theorem c3_verify_rejects_low_counts_witness :
    cC3.Verify envC2 (.genesis 10) false = false :=
  c3_verify_rejects_low_counts envC2 cC3 (.genesis 10) false paramsA rfl
    (Or.inl (by decide))

/-- C4 counterexample: a commitment of a recognized type with both
bit-vectors empty (hence every bit clear) for which VerifyNull
nevertheless returns false, because the bit-vector lengths differ from
the configured quorum size; so VerifyNull is not equivalent to
recognized-type plus all-bits-clear. -/
theorem c4_counterexample :
    ¬(cNull0.VerifyNull envC4 = true ↔
      ((lookupLLMQ envC4 cNull0.llmqType).isSome = true ∧
        cNull0.signers.all (fun b => !b) = true ∧
        cNull0.validMembers.all (fun b => !b) = true)) := by
  decide

/-- C4 amended: VerifyNull returns true iff the quorum type is recognized,
the commitment is the canonical null form (all bits clear, aggregated key
absent) and both bit-vectors have the configured length for the type; in
particular any commitment with a set bit is not null-form and fails. -/
theorem c4_verifynull_amended (env : Env) (c : CFinalCommitment) :
    c.VerifyNull env = true ↔
      ∃ p, lookupLLMQ env c.llmqType = some p ∧ c.IsNull = true ∧
        c.signers.length = p.size ∧ c.validMembers.length = p.size := by
  cases hp : lookupLLMQ env c.llmqType with
  | none => simp [CFinalCommitment.VerifyNull, hp]
  | some p =>
    have hmain : (c.VerifyNull env = true) ↔ (c.IsNull = true ∧ c.VerifySizes p = true) := by
      unfold CFinalCommitment.VerifyNull
      rw [hp]
      by_cases hn : c.IsNull <;> by_cases hs : c.VerifySizes p <;> simp [hn, hs]
    rw [hmain]
    constructor
    · rintro ⟨h1, h2⟩
      obtain ⟨h3, h4⟩ := (verifySizes_eq_true c p).mp h2
      exact ⟨p, rfl, h1, h3, h4⟩
    · rintro ⟨p2, hp2, h1, h2, h3⟩
      obtain rfl : p = p2 := Option.some.inj hp2
      exact ⟨h1, (verifySizes_eq_true c p).mpr ⟨h2, h3⟩⟩

/-- C4 amended witness: the canonical null commitment with correctly
sized bit-vectors passes VerifyNull. -/
theorem c4_verifynull_amended_witness : cNull3.VerifyNull envC4 = true :=
  (c4_verifynull_amended envC4 cNull3).mpr ⟨paramsA, rfl, by decide, rfl, rfl⟩

/-- C5: SetVerificationVector accepts and stores a vector exactly when
its serialized hash equals the commitment's recorded hash; a mismatching
vector is rejected and the stored vector is unchanged. -/
theorem c5_set_verification_vector (env : Env) (q : CQuorum)
    (v : BLSVerificationVector) :
    (env.serializeHashVvec v = q.qc.quorumVvecHash →
      q.SetVerificationVector env v = (true, { q with quorumVvec := some v })) ∧
    (env.serializeHashVvec v ≠ q.qc.quorumVvecHash →
      q.SetVerificationVector env v = (false, q)) := by
  constructor <;> intro h <;> simp [CQuorum.SetVerificationVector, h]

/-- C5 witness: with the hash of a vector modelled as its length and a
recorded hash of 2, a two-element vector is accepted and stored while a
one-element vector is rejected leaving the quorum unchanged. -/
theorem c5_set_verification_vector_witness :
    qC5.SetVerificationVector envC5 [kValid, kValid] =
      (true, { qC5 with quorumVvec := some [kValid, kValid] }) ∧
    qC5.SetVerificationVector envC5 [kValid] = (false, qC5) :=
  ⟨(c5_set_verification_vector envC5 qC5 [kValid, kValid]).1 rfl,
   (c5_set_verification_vector envC5 qC5 [kValid]).2 (by decide)⟩

/-- C6: GetQuorum returns null and leaves the state unchanged whenever
durable commitment storage has no mined commitment for the anchor hash,
for every cache state, so even a cache-resident quorum is not returned;
the storage check precedes the cache lookup. -/
theorem c6_get_quorum_storage_before_cache (env : Env) (st : ManagerState)
    (llmqType : Nat) (pindexQuorum : CBlockIndex)
    (h : env.hasMinedCommitment llmqType pindexQuorum.blockHash = false) :
    GetQuorum env st llmqType pindexQuorum = (none, st) := by
  simp [GetQuorum, HasQuorum, h]

/-- C6 witness: a state whose cache holds a quorum under hash 40 still
yields null when storage has no mined commitment for hash 40. -/
theorem c6_get_quorum_storage_before_cache_witness :
    (getMapCache stC6 1).get (CBlockIndex.genesis 40).blockHash = some qC5 ∧
    GetQuorum envBase stC6 1 (.genesis 40) = (none, stC6) :=
  ⟨rfl, c6_get_quorum_storage_before_cache envBase stC6 1 (.genesis 40) rfl⟩

/-- C7 counterexample: called with count 0, ScanQuorums returns the empty
list, even though two mined commitments are available and a sufficiently
large count returns both; so count 0 does not return the maximal
available list. -/
theorem c7_counterexample :
    (ScanQuorums envC7 stC7 1 (some chainC7) 0).map Prod.fst = some [] ∧
    (ScanQuorums envC7 stC7 1 (some chainC7) 5).map (fun r => r.1.length) = some 2 ∧
    (minedAncestors envC7 1 chainC7).length = 2 := by
  decide

/-- C7 amended: ScanQuorums with count 0 returns the empty list with an
unchanged state; with the scan cache cold for the start block and every
mined commitment loadable, any count at least the number of mined
commitments returns the maximal available list (one quorum per mined
commitment); and from a state with fresh per-type caches, a quorum-cache
capacity covering the mined history, and pairwise distinct anchor
hashes, two calls with the same arguments and no intervening chain
change return identical ordered results. -/
theorem c7_scan_amended :
    (∀ (env : Env) (st : ManagerState) (t : Nat) (ps : Option CBlockIndex),
      ScanQuorums env st t ps 0 = some ([], st)) ∧
    (∀ (env : Env) (st : ManagerState) (t : Nat) (pstart : CBlockIndex) (N : Nat),
      (getScanCache st t).get pstart.blockHash = none →
      (∀ b ∈ minedAncestors env t pstart,
        (env.getMinedCommitment t b.blockHash).isSome = true) →
      (minedAncestors env t pstart).length ≤ N →
      ∃ r st1, ScanQuorums env st t (some pstart) N = some (r, st1) ∧
        r.length = (minedAncestors env t pstart).length) ∧
    (∀ (env : Env) (st : ManagerState) (t : Nat) (pstart : CBlockIndex) (N Mq M : Nat),
      st.mapQuorumsCache.find? (fun e => e.1 = t) = some (t, ⟨Mq, []⟩) →
      st.scanQuorumsCache.find? (fun e => e.1 = t) = some (t, ⟨M, []⟩) →
      (minedAncestors env t pstart).length ≤ Mq →
      ((minedAncestors env t pstart).map CBlockIndex.blockHash).Nodup →
      (∀ b ∈ minedAncestors env t pstart,
        (env.getMinedCommitment t b.blockHash).isSome = true) →
      ∃ r1 s1 r2 s2, ScanQuorums env st t (some pstart) N = some (r1, s1) ∧
        ScanQuorums env s1 t (some pstart) N = some (r2, s2) ∧ r2 = r1) := by
  refine ⟨?_, ?_, ?_⟩
  · intro env st t ps
    cases ps <;> simp [ScanQuorums]
  · intro env st t pstart N hsc hcom hN
    exact scanQuorums_maximal env st t pstart N hsc hcom hN
  · intro env st t pstart N Mq M h1 h2 h3 h4 h5
    exact scanQuorums_deterministic env st t pstart N Mq M h1 h2 h3 h4 h5

/-- C7 amended witness: the three behaviours at a concrete two-commitment
chain: count 0 yields the empty list, count 7 yields both quorums, and
two back-to-back scans with count 1 agree. -/
theorem c7_scan_amended_witness :
    ScanQuorums envC7 stC7 1 (some chainC7) 0 = some ([], stC7) ∧
    (∃ r st1, ScanQuorums envC7 stC7 1 (some chainC7) 7 = some (r, st1) ∧
      r.length = (minedAncestors envC7 1 chainC7).length) ∧
    (∃ r1 s1 r2 s2, ScanQuorums envC7 stC7 1 (some chainC7) 1 = some (r1, s1) ∧
      ScanQuorums envC7 s1 1 (some chainC7) 1 = some (r2, s2) ∧ r2 = r1) :=
  ⟨c7_scan_amended.1 envC7 stC7 1 (some chainC7),
   c7_scan_amended.2.1 envC7 stC7 1 chainC7 7 (by decide) (by decide) (by decide),
   c7_scan_amended.2.2 envC7 stC7 1 chainC7 1 5 4 (by decide) (by decide) (by decide)
     (by decide) (by decide)⟩

/-- C8: evaluation of the QGETDATA handler at the failing input.  With an
unexpired request already outstanding for the same (peer, incoming) key,
the handler scores the duplicate with misbehavior 25 and nevertheless
continues and serves it, sending a full QDATA response carrying the
requested verification vector (the duplicate branch of the source has no
early return). -/
theorem c8_duplicate_request_scored_but_served :
    findDataRequest stC8 (200, false) = some reqOldC8 ∧
    reqOldC8.IsExpired envC8 = false ∧
    ProcessQGETDATA envC8 stC8 (some peerC8) reqC8 =
      (stC8, [.err "Request limit exceeded" 25,
              .sentQDATA (reqC8.SetError .NONE) ⟨some [kValid, kValid], none⟩]) := by
  decide

/-- C9: a QDATA response is accepted only against an outstanding,
unprocessed, field-matching outgoing request of the sending peer.  With
no outstanding request it is rejected as not requested; an already
processed request rejects it as already received; a field mismatch
rejects it as not like requested, in all three cases leaving the whole
manager state unchanged.  A matching response leads to the request being
marked processed in every completion of the handler (the mark happens
before the payload is applied), and a second delivery of the same
response is then rejected as already received without further change. -/
theorem c9_qdata_response_matching (env : Env) (st : ManagerState) (pFrom : CNode)
    (request : CQuorumDataRequest) (vvecIn : BLSVerificationVector)
    (encIn : List CBLSIESEncryptedSecretKey)
    (hgate : ¬((!env.fMasternodeMode ∧ !env.isWatchQuorumsEnabled) ∨
      (pFrom.verifiedProRegTxHash = 0 ∧ !pFrom.qwatch))) :
    (findDataRequest st (pFrom.verifiedProRegTxHash, true) = none →
      ProcessQDATA env st (some pFrom) request vvecIn encIn =
        some (st, [.err "Not requested" 10])) ∧
    (∀ entry, findDataRequest st (pFrom.verifiedProRegTxHash, true) = some entry →
      entry.fProcessed = true →
      ProcessQDATA env st (some pFrom) request vvecIn encIn =
        some (st, [.err "Already received" 10])) ∧
    (∀ entry, findDataRequest st (pFrom.verifiedProRegTxHash, true) = some entry →
      entry.fProcessed = false → request.sameRequest entry = false →
      ProcessQDATA env st (some pFrom) request vvecIn encIn =
        some (st, [.err "Not like requested" 10])) ∧
    (∀ entry, findDataRequest st (pFrom.verifiedProRegTxHash, true) = some entry →
      entry.fProcessed = false → request.sameRequest entry = true →
      ∀ st1 effs, ProcessQDATA env st (some pFrom) request vvecIn encIn = some (st1, effs) →
        findDataRequest st1 (pFrom.verifiedProRegTxHash, true) = some entry.SetProcessed ∧
        ProcessQDATA env st1 (some pFrom) request vvecIn encIn =
          some (st1, [.err "Already received" 10])) := by
  refine ⟨fun hfind => ?_, fun entry hfind hproc => ?_,
    fun entry hfind hproc hsame => ?_, fun entry hfind hproc hsame st1 effs hrun => ?_⟩
  · simp only [ProcessQDATA, hfind]
    rw [if_neg hgate]
  · exact qdata_gate_reject env st pFrom request vvecIn encIn entry hgate hfind hproc
  · simp only [ProcessQDATA, hfind]
    rw [if_neg hgate, if_neg (by simp [hproc]), if_pos (by simp [hsame])]
  · have hrun2 : applyQDATA env
        (setDataRequest st (pFrom.verifiedProRegTxHash, true) entry.SetProcessed)
        request vvecIn encIn = some (st1, effs) := by
      rw [← hrun]
      simp only [ProcessQDATA, hfind]
      rw [if_neg hgate, if_neg (by simp [hproc]), if_neg (by simp [hsame])]
    have hdr := applyQDATA_preserves_dataRequests env _ request vvecIn encIn st1 effs hrun2
    have hfind1 : findDataRequest st1 (pFrom.verifiedProRegTxHash, true) =
        some entry.SetProcessed := by
      have : findDataRequest st1 (pFrom.verifiedProRegTxHash, true) =
          findDataRequest
            (setDataRequest st (pFrom.verifiedProRegTxHash, true) entry.SetProcessed)
            (pFrom.verifiedProRegTxHash, true) := by
        unfold findDataRequest
        rw [hdr]
      rw [this, findDataRequest_set]
    exact ⟨hfind1,
      qdata_gate_reject env st1 pFrom request vvecIn encIn entry.SetProcessed hgate hfind1 rfl⟩

/-- C9 witness: the three rejection scenarios and the exactly-once
acceptance, at concrete inputs. -/
theorem c9_qdata_response_matching_witness :
    ProcessQDATA envC9 stEmpty (some peerC9) reqC9 [] [] =
      some (stEmpty, [.err "Not requested" 10]) ∧
    ProcessQDATA envC9 stC9proc (some peerC9) reqC9 [] [] =
      some (stC9proc, [.err "Already received" 10]) ∧
    ProcessQDATA envC9 stC9mism (some peerC9) reqC9 [] [] =
      some (stC9mism, [.err "Not like requested" 10]) ∧
    (findDataRequest
        (setDataRequest stC9match (200, true) entC9.SetProcessed) (200, true) =
      some entC9.SetProcessed ∧
     ProcessQDATA envC9
        (setDataRequest stC9match (200, true) entC9.SetProcessed)
        (some peerC9) reqC9 [] [] =
      some (setDataRequest stC9match (200, true) entC9.SetProcessed,
        [.err "Already received" 10])) :=
  ⟨(c9_qdata_response_matching envC9 stEmpty peerC9 reqC9 [] [] (by decide)).1 rfl,
   (c9_qdata_response_matching envC9 stC9proc peerC9 reqC9 [] [] (by decide)).2.1
     { entC9 with fProcessed := true } rfl rfl,
   (c9_qdata_response_matching envC9 stC9mism peerC9 reqC9 [] [] (by decide)).2.2.1
     entC9other rfl rfl (by decide),
   (c9_qdata_response_matching envC9 stC9match peerC9 reqC9 [] [] (by decide)).2.2.2
     entC9 rfl rfl (by decide)
     (setDataRequest stC9match (200, true) entC9.SetProcessed)
     [.err "Quorum not found" 0] (by decide)⟩

/-- C10 counterexample: a QDATA response reaching the
encrypted-contributions branch with a null verification vector, built
entirely from the embedded operations: GetQuorum constructs and caches a
quorum without a verification vector (no stored or rebuildable
contributions), RequestQuorumData accepts an
encrypted-contributions-only request for it, and the handler of the
matching response then dereferences the null verification vector. -/
theorem c10_counterexample :
    (GetQuorum envX stX0 1 (.genesis 40)).1 =
      some (baseQuorum envX 1 (.genesis 40) cQ40 40) ∧
    (baseQuorum envX 1 (.genesis 40) cQ40 40).quorumVvec = none ∧
    (RequestQuorumData envX stX1 (some peerX) 1 (some (.genesis 40)) 2 100).1 = true ∧
    ProcessQDATA envX stX2 (some peerX) respX [] [] = none := by
  decide

/-- C10 amended: whenever the request's data mask includes the
verification-vector bit, the QDATA handler never reaches the null
dereference: the earlier branch either installed the received vector or
already returned, so the pointer read in the encrypted-contributions
branch is non-null. -/
theorem c10_vvec_mask_implies_no_null_deref (env : Env) (st : ManagerState)
    (pFrom : Option CNode) (request : CQuorumDataRequest)
    (vvecIn : BLSVerificationVector) (encIn : List CBLSIESEncryptedSecretKey)
    (hmask : request.nDataMask &&& CQuorumDataRequest.QUORUM_VERIFICATION_VECTOR ≠ 0) :
    ProcessQDATA env st pFrom request vvecIn encIn ≠ none := by
  have happly : ∀ st1, applyQDATA env st1 request vvecIn encIn ≠ none := by
    intro st1
    unfold applyQDATA
    by_cases he : request.nError ≠ QDataError.NONE
    · simp [he]
    · rw [if_neg he]
      cases hq : (getMapCache st1 request.llmqType).get request.quorumHash with
      | none => simp
      | some pQuorum =>
        dsimp only
        rw [if_pos hmask]
        rcases hset : pQuorum.SetVerificationVector env vvecIn with ⟨ok, q1⟩
        cases ok with
        | false => simp [hset]
        | true =>
          have hq1 : q1.quorumVvec = some vvecIn := by
            rw [setVerificationVector_true env pQuorum vvecIn q1 hset]
          dsimp only
          rw [if_neg (by simp)]
          split
          · rw [hq1]
            dsimp only
            split
            · simp
            · split
              · simp
              · split
                · simp
                · split <;> simp
          · simp
  unfold ProcessQDATA
  cases pFrom with
  | none => simp
  | some pFrom =>
    dsimp only
    split
    · simp
    · cases hfind : findDataRequest st (pFrom.verifiedProRegTxHash, true) with
      | none => simp
      | some entry =>
        dsimp only
        split
        · simp
        · split
          · simp
          · exact happly _

/-- C10 amended witness: a response whose mask includes the
verification-vector bit completes without the null dereference. -/
theorem c10_vvec_mask_implies_no_null_deref_witness :
    ProcessQDATA envC9 stC9match (some peerC9) reqC9 [] [] ≠ none :=
  c10_vvec_mask_implies_no_null_deref envC9 stC9match (some peerC9) reqC9 [] []
    (by decide)

end llmq
